import Mathlib

/-!
Verification of the storage core of the proxmox-backup repository.

We shallowly embed the relevant Rust code in Lean:

* `PBS.Tape` — the blocked tape reader (`pbs-tape/src/blocked_reader.rs`) over an
  in-memory emulated block device, plus the blocked writer modelled from the spec.
* `PBS.Snap` — snapshot destruction (`pbs-datastore/src/backup_info.rs`).
* `PBS.Prune` — the prune job loop (`src/server/prune_job.rs`).
* `PBS.Store` — backup-group scanning (`pbs-datastore/src/backup_info.rs`).
* `PBS.Rrd` — the round-robin database (`src/rrd/rrd.rs`) and the journalled
  cache apply path (`proxmox-rrd/src/cache.rs`).

Machine integers are modelled as `Nat` with explicit wrap-around (`% 2 ^ 64`,
`% 2 ^ 32`) where Rust release-mode overflow can occur; `f64` values carried by
the RRD are modelled as rationals (the claims under study do not depend on
floating-point rounding).
-/

namespace PBS

/-- Wrap-around bound of `u64`. -/
def U64 : Nat := 2 ^ 64

/-- Wrap-around bound of `u32`. -/
def U32 : Nat := 2 ^ 32

/-- `u64` wrapping subtraction: `a.wrapping_sub(b)` for `a, b < 2^64`. -/
def wsub (a b : Nat) : Nat := (a + U64 - b % U64) % U64

/-- `u64` wrapping addition. -/
def wadd (a b : Nat) : Nat := (a + b) % U64

instance {ε α : Type} [DecidableEq ε] [DecidableEq α] : DecidableEq (Except ε α) := fun x y =>
  match x, y with
  | .ok a, .ok b => if h : a = b then .isTrue (by rw [h]) else .isFalse (by simp [h])
  | .error a, .error b => if h : a = b then .isTrue (by rw [h]) else .isFalse (by simp [h])
  | .ok _, .error _ => .isFalse (by simp)
  | .error _, .ok _ => .isFalse (by simp)

namespace Tape

/-- `PROXMOX_TAPE_BLOCK_SIZE`: fixed 64 KiB tape block. -/
def BLOCK_SIZE : Nat := 65536

/-- Header size in bytes: magic(8), flags(2), seq_nr(4), payload_size(2). -/
def HEADER_SIZE : Nat := 16

/-- Payload capacity of one block (`BlockHeader::payload.len()`), the block size
minus the header. -/
def PAYLOAD_CAP : Nat := BLOCK_SIZE - HEADER_SIZE

/-- The expected tape block magic (`PROXMOX_TAPE_BLOCK_HEADER_MAGIC_1_0`).
Modelled from the spec: the constant's concrete 8 bytes live in pbs-tape's
lib.rs which is not under src/; only equality with the expected constant
matters to the reader, so we model it as an abstract numeric tag. -/
def MAGIC : Nat := 968713540

/-- The `BlockHeaderFlags` bitflags relevant to the reader. -/
structure BlockHeaderFlags where
  endOfStream : Bool
  incomplete : Bool
deriving DecidableEq, Repr

/-- One tape block (`BlockHeader`): header fields plus the payload area.
`seqNr` models the `u32` sequence field, `size` the `u16` payload size field. -/
structure BlockHeader where
  magic : Nat
  flags : BlockHeaderFlags
  seqNr : Nat
  size : Nat
  payload : List Nat
deriving DecidableEq, Repr

/-- Error kinds surfaced by the blocked reader (the Rust code uses
`std::io::Error` with distinct messages; we keep them apart as constructors). -/
inductive TapeErr where
  /-- underlying medium at EOF when a block was expected (open on empty tape) -/
  | endOfFile
  /-- "detected tape block with wrong magic number" -/
  | notOurStream
  /-- "detected tape block with wrong sequence number" -/
  | outOfOrder
  /-- "detected tape block with wrong payload size" -/
  | malformedSize
  /-- "detected tape block with zero payload size" -/
  | malformedZero
  /-- "detected tape block after block-stream end marker" -/
  | blockAfterEndMarker
  /-- "got unexpected end of tape" -/
  | unexpectedEot
  /-- "detected tape stream without end marker" -/
  | truncatedStream
  /-- "is_incomplete/has_end_marker failed: EOD not reached" -/
  | eodNotReached
  /-- "is_incomplete failed: no end marker found" -/
  | noEndMarkerFound
  /-- "detected read after error - internal error" -/
  | poisoned
  /-- fuel exhaustion artifact of the bounded read-to-end driver (never reached
  on the inputs we prove about) -/
  | outOfFuel
deriving DecidableEq, Repr

/-- `BlockedReader::check_buffer`: validate the magic, sequence number and
payload size of the block currently in the buffer. -/
def checkBuffer (buffer : BlockHeader) (seqNr : Nat) : Except TapeErr (Nat × Bool) :=
  if buffer.magic ≠ MAGIC then .error .notOurStream
  else if seqNr ≠ buffer.seqNr then .error .outOfOrder
  else
    let size := buffer.size
    let foundEndMarker := buffer.flags.endOfStream
    if size > PAYLOAD_CAP then .error .malformedSize
    else if size = 0 ∧ foundEndMarker = false then .error .malformedZero
    else .ok (size, foundEndMarker)

/-- `BlockedReader::consume_eof_marker`: after the end-of-stream frame the
underlying medium must be at EOF; any further block is an error.  The device is
modelled as the list of blocks not yet read (`EmulateTapeReader` reports EOF
once its byte source is drained). -/
def consumeEofMarker (frames : List BlockHeader) : Except TapeErr Unit :=
  match frames with
  | _ :: _ => .error .blockAfterEndMarker
  | [] => .ok ()

/-- The `BlockedReader` state.  `frames` is the remaining content of the
underlying block device. -/
structure BlockedReader where
  frames : List BlockHeader
  buffer : BlockHeader
  seqNr : Nat
  foundEndMarker : Bool
  incomplete : Bool
  gotEod : Bool
  readError : Bool
  readPos : Nat
deriving Repr

/-- `BlockedReader::open`: read and validate the first block. -/
def openReader (frames : List BlockHeader) : Except TapeErr BlockedReader :=
  match frames with
  | [] => .error .endOfFile
  | buffer :: rest =>
    match checkBuffer buffer 0 with
    | .error e => .error e
    | .ok (_, foundEndMarker) =>
      if foundEndMarker then
        match consumeEofMarker rest with
        | .error e => .error e
        | .ok () =>
          .ok { frames := rest, buffer, seqNr := 1, foundEndMarker := true,
                incomplete := buffer.flags.incomplete, gotEod := true,
                readError := false, readPos := 0 }
      else
        .ok { frames := rest, buffer, seqNr := 1, foundEndMarker := false,
              incomplete := false, gotEod := false, readError := false, readPos := 0 }

/-- `BlockedReader::read_block`: refill the buffer from the next block.  Rust
mutates `self` before bailing, so the (possibly error) result is paired with
the updated state. -/
def readBlock (checkEndMarker : Bool) (s : BlockedReader) :
    BlockedReader × Except TapeErr Nat :=
  match s.frames with
  | [] =>
    let s := { s with gotEod := true, readPos := PAYLOAD_CAP }
    if s.foundEndMarker = false ∧ checkEndMarker then (s, .error .truncatedStream)
    else (s, .ok 0)
  | f :: rest =>
    let s := { s with frames := rest, buffer := f }
    match checkBuffer f s.seqNr with
    | .error e => (s, .error e)
    | .ok (size, foundEndMarker) =>
      let s := { s with seqNr := (s.seqNr + 1) % U32 }
      if foundEndMarker then
        let s := { s with foundEndMarker := true, incomplete := f.flags.incomplete }
        match consumeEofMarker s.frames with
        | .error e => (s, .error e)
        | .ok () => ({ s with gotEod := true, readPos := 0 }, .ok size)
      else ({ s with readPos := 0 }, .ok size)

/-- The copy step at the end of `Read::read`: copy up to `bufLen` bytes from the
buffer payload starting at `readPos` (given `rest` pending payload bytes). -/
def readCopy (s : BlockedReader) (rest : Int) (bufLen : Nat) :
    BlockedReader × Except TapeErr (List Nat) :=
  if rest ≤ 0 then (s, .ok [])
  else
    let copyLen := if (bufLen : Int) < rest then bufLen else rest.toNat
    let bytes := (s.buffer.payload.drop s.readPos).take copyLen
    ({ s with readPos := s.readPos + copyLen }, .ok bytes)

/-- `<BlockedReader as Read>::read`, returning the bytes copied into the
caller's buffer of length `bufLen`. -/
def read (s : BlockedReader) (bufLen : Nat) : BlockedReader × Except TapeErr (List Nat) :=
  if s.readError then (s, .error .poisoned)
  else
    let rest : Int := (s.buffer.size : Int) - (s.readPos : Int)
    if rest ≤ 0 ∧ s.gotEod = false then
      match readBlock true s with
      | (s', .error e) => ({ s' with readError := true }, .error e)
      | (s', .ok len) => readCopy s' (len : Int) bufLen
    else readCopy s rest bufLen

/-- `TapeRead::is_incomplete`. -/
def isIncomplete (s : BlockedReader) : Except TapeErr Bool :=
  if s.gotEod = false then .error .eodNotReached
  else if s.foundEndMarker = false then .error .noEndMarkerFound
  else .ok s.incomplete

/-- `TapeRead::has_end_marker`. -/
def hasEndMarker (s : BlockedReader) : Except TapeErr Bool :=
  if s.gotEod = false then .error .eodNotReached
  else .ok s.foundEndMarker

/-- The drain loop of `TapeRead::skip_data`. -/
def skipLoop (s : BlockedReader) (bytes : Nat) : BlockedReader × Except TapeErr Nat :=
  if hg : s.gotEod then (s, .ok bytes)
  else
    match h : readBlock false s with
    | (s', .error e) => (s', .error e)
    | (s', .ok n) => skipLoop s' (bytes + n)
termination_by s.frames.length + (if s.gotEod then 0 else 1)
decreasing_by
  have key : s'.frames.length + (if s'.gotEod then 0 else 1) < s.frames.length + 1 := by
    unfold readBlock at h
    cases hf : s.frames with
    | nil =>
      simp only [hf] at h
      split at h
      · exact absurd h (by simp)
      · cases h; simp [hf]
    | cons f rest =>
      simp only [hf] at h
      cases hcb : checkBuffer f s.seqNr with
      | error e => simp [hcb] at h
      | ok v =>
        obtain ⟨size, fem⟩ := v
        simp only [hcb] at h
        split at h
        · cases hce : consumeEofMarker rest with
          | error e => simp [hce] at h
          | ok u =>
            simp only [hce] at h; cases h; simp only [hf]; simp; omega
        · cases h; simp only [hf]; simp [hg]
  simpa [hg] using key

/-- `TapeRead::skip_data`: count the unread rest of the current buffer, then
drain remaining blocks without requiring an end marker. -/
def skipData (s : BlockedReader) : BlockedReader × Except TapeErr Nat :=
  let rest : Int := (s.buffer.size : Int) - (s.readPos : Int)
  let bytes := if 0 < rest then rest.toNat else 0
  skipLoop s bytes

/-- Pad a chunk of payload bytes to the fixed payload area size. -/
def padPayload (c : List Nat) : List Nat := c ++ List.replicate (PAYLOAD_CAP - c.length) 0

/-- A data frame emitted by the blocked writer. -/
def mkDataFrame (seq : Nat) (c : List Nat) : BlockHeader :=
  { magic := MAGIC, flags := ⟨false, false⟩, seqNr := seq % U32,
    size := c.length, payload := padPayload c }

/-- The final end-of-stream frame emitted by `finish`. -/
def mkEndFrame (seq : Nat) (c : List Nat) (inc : Bool) : BlockHeader :=
  { magic := MAGIC, flags := ⟨true, inc⟩, seqNr := seq % U32,
    size := c.length, payload := padPayload c }

/-- Modelled from the spec: `BlockedWriter` (pbs-tape's blocked_writer.rs) is
not under src/.  Per the spec (§4.H), the writer keeps a sequence counter
starting at 0, flushes one full frame for every `PAYLOAD_CAP` buffered payload
bytes, and `finish` emits a final frame carrying the remaining bytes with the
`END_OF_STREAM` flag set (`INCOMPLETE` when signalled), followed by the file
mark of the medium. -/
def writeFrames (seq : Nat) (data : List Nat) (inc : Bool) : List BlockHeader :=
  if h : data.length < PAYLOAD_CAP then [mkEndFrame seq data inc]
  else
    mkDataFrame seq (data.take PAYLOAD_CAP) ::
      writeFrames (seq + 1) (data.drop PAYLOAD_CAP) inc
termination_by data.length
decreasing_by
  simp only [List.length_drop]
  have : 0 < PAYLOAD_CAP := by norm_num [PAYLOAD_CAP, BLOCK_SIZE, HEADER_SIZE]
  omega

/-- Write a byte string through the blocked writer and call `finish(false)`:
the sequence of blocks put on the tape. -/
def framedWrite (data : List Nat) : List BlockHeader := writeFrames 0 data false

/-- Number of bytes a frame occupies on tape: 16-byte header plus payload area. -/
def BlockHeader.encodedLen (f : BlockHeader) : Nat := HEADER_SIZE + f.payload.length

/-- Total length in bytes of the encoded tape data. -/
def encodedLen (frames : List BlockHeader) : Nat := (frames.map BlockHeader.encodedLen).sum

/-- Driver reading the stream to its end through repeated `read` calls with a
block-sized caller buffer, as `read_to_end` does.  `fuel` bounds the number of
calls; on the streams we prove about the bound is never reached. -/
def readToEndFuel : Nat → BlockedReader → List Nat → Except TapeErr (List Nat)
  | 0, _, _ => .error .outOfFuel
  | fuel + 1, s, acc =>
    match read s BLOCK_SIZE with
    | (_, .error e) => .error e
    | (s', .ok bytes) =>
      if bytes.isEmpty then .ok acc else readToEndFuel fuel s' (acc ++ bytes)

/-- Read all data from an opened blocked reader until end of stream. -/
def readToEnd (s : BlockedReader) : Except TapeErr (List Nat) :=
  readToEndFuel (2 * s.frames.length + 3) s []

/-- Open a tape and read the full data stream back. -/
def readAll (frames : List BlockHeader) : Except TapeErr (List Nat) :=
  match openReader frames with
  | .error e => .error e
  | .ok s => readToEnd s

/-- The remaining tape consists only of well-formed data frames with
consecutive sequence numbers starting at `seq` — the shape of a stream whose
end marker was never written (truncated at physical EOF). -/
def wfDataFrames : Nat → List BlockHeader → Prop
  | _, [] => True
  | seq, f :: rest =>
    f.magic = MAGIC ∧ f.seqNr = seq ∧ 0 < f.size ∧ f.size ≤ PAYLOAD_CAP ∧
    f.flags.endOfStream = false ∧ wfDataFrames ((seq + 1) % U32) rest

/-- Total payload bytes carried by a list of frames. -/
def framesPayload (frames : List BlockHeader) : Nat := (frames.map BlockHeader.size).sum

end Tape

namespace Snap

/-- The filesystem facts `BackupDir::destroy` depends on for one snapshot:
whether the `.protected` marker exists, whether the two locks can be acquired,
and whether `remove_dir_all` succeeds. -/
structure SnapshotState where
  isProtected : Bool
  lockOk : Bool
  manifestLockOk : Bool
  removeOk : Bool
deriving DecidableEq, Repr

/-- Error kinds raised by `BackupDir::destroy`. -/
inductive DestroyErr where
  /-- snapshot lock contention ("possibly running or in use") -/
  | inUse
  /-- manifest lock wait exceeded its bound -/
  | lockTimeout
  /-- "cannot remove protected snapshot" -/
  | protectedSnapshot
  /-- `remove_dir_all` failed -/
  | ioError
deriving DecidableEq, Repr

/-- `BackupDir::destroy(force)`: acquire the snapshot and manifest locks unless
`force`, then refuse if the protection marker is present, then remove the
directory. -/
def destroy (s : SnapshotState) (force : Bool) : Except DestroyErr Unit :=
  if force = false ∧ s.lockOk = false then .error .inUse
  else if force = false ∧ s.manifestLockOk = false then .error .lockTimeout
  else if s.isProtected then .error .protectedSnapshot
  else if s.removeOk = false then .error .ioError
  else .ok ()

end Snap

namespace Prune

/-- `PruneOptions`: the optional keep buckets. -/
structure PruneOptions where
  keepLast : Option Nat
  keepHourly : Option Nat
  keepDaily : Option Nat
  keepWeekly : Option Nat
  keepMonthly : Option Nat
  keepYearly : Option Nat
deriving DecidableEq, Repr

/-- Modelled from the spec: `pbs_datastore::prune::keeps_something` is not under
src/; per the spec a policy keeps something iff some keep bucket is set (each
bucket optional, non-negative; an unset or zero bucket keeps nothing). -/
def keepsSomething (o : PruneOptions) : Bool :=
  o.keepLast.getD 0 > 0 || o.keepHourly.getD 0 > 0 || o.keepDaily.getD 0 > 0 ||
  o.keepWeekly.getD 0 > 0 || o.keepMonthly.getD 0 > 0 || o.keepYearly.getD 0 > 0

/-- Modelled from the spec: `pbs_datastore::prune::compute_prune_info` is not
under src/.  We model only what the claims rely on: every protected snapshot is
marked keep ("Protected snapshots are always kept", spec §4.G), and the
bucket-based mark for the remaining snapshots is abstracted as a policy
function over the snapshot. -/
def keepMark (policy : Snap.SnapshotState → Bool) (s : Snap.SnapshotState) : Bool :=
  s.isProtected || policy s

/-- Prune run result: `emptyPolicy` mirrors the spec's claimed refusal error;
the code path of `prune_datastore` never produces it. -/
inductive PruneErr where
  | emptyPolicy
deriving DecidableEq, Repr

/-- The per-group removal loop of `prune_datastore`: a snapshot is removed when
it is not kept (`keep_all || mark.keep()` is false), the run is not a dry run,
and `remove_backup_dir` (which calls `destroy` without force) succeeds;
per-snapshot removal errors are logged and skipped. -/
def pruneGroup (keepAll : Bool) (policy : Snap.SnapshotState → Bool) (dryRun : Bool)
    (snaps : List Snap.SnapshotState) : List Snap.SnapshotState :=
  snaps.filter fun s =>
    !(keepAll || keepMark policy s) && !dryRun && decide (Snap.destroy s false = .ok ())

/-- `prune_datastore`: compute `keep_all` from the policy, walk every group and
remove unkept snapshots; returns the list of snapshots actually removed.  The
function has no refusal path for an empty policy: it only logs
"No prune selection - keeping all files." and keeps everything. -/
def pruneDatastore (o : PruneOptions) (policy : Snap.SnapshotState → Bool)
    (dryRun : Bool) (groups : List (List Snap.SnapshotState)) :
    Except PruneErr (List Snap.SnapshotState) :=
  let keepAll := !keepsSomething o
  .ok (groups.flatMap (pruneGroup keepAll policy dryRun))

end Prune

namespace Store

/-- `MANIFEST_BLOB_NAME`. -/
def MANIFEST_BLOB_NAME : String := "index.json.blob"

/-- One directory entry of a backup group directory, as seen by the
`scandir(..., BACKUP_DATE_REGEX, ...)` walk of `last_successful_backup`: the
entry's file type, the timestamp parsed from its (regex-matched) name, and the
files inside it. -/
structure DirEntry where
  time : Int
  isDir : Bool
  files : List String
deriving DecidableEq, Repr

/-- One `scandir` callback step of `last_successful_backup`: skip non-directory
entries, skip directories whose manifest open fails with `ENOENT`, otherwise
raise the running maximum timestamp. -/
def lsbStep (last : Option Int) (e : DirEntry) : Option Int :=
  if e.isDir = false then last
  else if MANIFEST_BLOB_NAME ∈ e.files then
    match last with
    | some l => if e.time > l then some e.time else some l
    | none => some e.time
  else last

/-- `BackupGroup::last_successful_backup`: fold over the group directory,
keeping the greatest timestamp among snapshot directories whose
`index.json.blob` manifest can be opened. -/
def last_successful_backup (entries : List DirEntry) : Option Int :=
  entries.foldl lsbStep none

/-- The directory entries counted as successful snapshots by the scan. -/
def finishedDirs (entries : List DirEntry) : List DirEntry :=
  entries.filter fun e => e.isDir && decide (MANIFEST_BLOB_NAME ∈ e.files)

/-- The file list of one snapshot (`BackupInfo.files`). -/
structure BackupInfo where
  time : Int
  files : List String
deriving DecidableEq, Repr

/-- `BackupInfo::is_finished`: a backup is considered finished iff the manifest
blob is among its files. -/
def BackupInfo.is_finished (info : BackupInfo) : Bool :=
  info.files.any fun name => name = MANIFEST_BLOB_NAME

end Store

namespace Rrd

/-- `RRD_DATA_ENTRIES`: every series holds 70 slots. -/
def RRD_DATA_ENTRIES : Nat := 70

/-- Reduce a running slot index to `Fin 70`. -/
def idx (i : Nat) : Fin 70 := ⟨i % 70, Nat.mod_lt _ (by norm_num)⟩

/-- Data source type of a journal entry. -/
inductive DST where
  | Gauge
  | Derive
deriving DecidableEq, Repr

/-- RRD consolidation mode. -/
inductive RRDMode where
  | Max
  | Average
deriving DecidableEq, Repr

/-- RRD time frame resolution selector. -/
inductive RRDTimeFrameResolution where
  | Hour
  | Day
  | Week
  | Month
  | Year
deriving DecidableEq, Repr

/-- Modelled from the spec: the numeric value (seconds per slot) of each
`RRDTimeFrameResolution` variant lives in api2/types which is not under src/;
the spec fixes only that each timeframe has a caller-visible resolution, with
70 slots spanning the hour/day/week/month/year.  We use the repository's
conventional values (60 s-grade slots). -/
def RRDTimeFrameResolution.val : RRDTimeFrameResolution → Nat
  | .Hour => 60
  | .Day => 60 * 30
  | .Week => 60 * 180
  | .Month => 60 * 720
  | .Year => 60 * 10080

/-- One RRD slot: `{f64 max; f64 average; u64 count}` with the floats modelled
as rationals. -/
structure RRDEntry where
  max : ℚ
  average : ℚ
  count : Nat
deriving DecidableEq, Repr

instance : Inhabited RRDEntry := ⟨⟨0, 0, 0⟩⟩

/-- The in-RAM RRD: last update epoch plus the five 70-slot series. -/
structure RRD where
  last_update : Nat
  hour : Fin 70 → RRDEntry
  day : Fin 70 → RRDEntry
  week : Fin 70 → RRDEntry
  month : Fin 70 → RRDEntry
  year : Fin 70 → RRDEntry

/-- `RRD::new`: the zero-initialized RRD. -/
def RRD.new : RRD :=
  { last_update := 0, hour := fun _ => default, day := fun _ => default,
    week := fun _ => default, month := fun _ => default, year := fun _ => default }

/-- `RRD::compute_new_value`: merge a sample into a slot. -/
def compute_new_value (data : Fin 70 → RRDEntry) (index : Fin 70) (value : ℚ) : RRDEntry :=
  let e := data index
  let newCount := (e.count + 1) % U64
  if e.count = 0 then ⟨value, value, 1⟩
  else
    let newMax := if e.max > value then e.max else value
    let newAverage := (e.average * (e.count : ℚ) + value) / (newCount : ℚ)
    ⟨newMax, newAverage, newCount⟩

/-- The slot-expiry loop of `RRD::update` for one series: walk 70 slots from
`last_update`, zeroing every slot whose time falls before the new window. -/
def zeroOldAux (reso minTime : Nat) : Nat → Nat → Nat → (Fin 70 → RRDEntry) → Fin 70 → RRDEntry
  | 0, _, _, series => series
  | n + 1, t, index, series =>
    let series' := if t < minTime then Function.update series (idx index) default else series
    zeroOldAux reso minTime n (wadd t reso) ((index + 1) % 70) series'

/-- One resolution block of `RRD::update`: expire old slots, then merge the
sample into the slot of `epoch`. -/
def updateSeries (series : Fin 70 → RRDEntry) (last epoch reso : Nat) (value : ℚ) :
    Fin 70 → RRDEntry :=
  let minTime := wsub epoch (RRD_DATA_ENTRIES * reso)
  let series := zeroOldAux reso minTime RRD_DATA_ENTRIES last ((last / reso) % 70) series
  let index := idx ((epoch / reso) % 70)
  Function.update series index (compute_new_value series index value)

/-- `RRD::update`: merge a sample at `epoch` into all five series and advance
`last_update`. -/
def RRD.update (rrd : RRD) (epoch : Nat) (value : ℚ) : RRD :=
  { last_update := epoch,
    hour := updateSeries rrd.hour rrd.last_update epoch RRDTimeFrameResolution.Hour.val value,
    day := updateSeries rrd.day rrd.last_update epoch RRDTimeFrameResolution.Day.val value,
    week := updateSeries rrd.week rrd.last_update epoch RRDTimeFrameResolution.Week.val value,
    month := updateSeries rrd.month rrd.last_update epoch RRDTimeFrameResolution.Month.val value,
    year := updateSeries rrd.year rrd.last_update epoch RRDTimeFrameResolution.Year.val value }

/-- One extracted slot: a time and either a value or null. -/
structure DataPoint where
  time : Nat
  value : Option ℚ
deriving DecidableEq, Repr

/-- The slot-collection loop of `RRD::extract_data`. -/
def extractLoop (data : Fin 70 → RRDEntry) (mode : RRDMode) (reso rrdStart rrdEnd : Nat) :
    Nat → Nat → Nat → List DataPoint
  | 0, _, _ => []
  | n + 1, t, index =>
    let point : DataPoint :=
      if t < rrdStart ∨ t > rrdEnd then ⟨t, none⟩
      else
        let entry := data (idx index)
        if entry.count = 0 then ⟨t, none⟩
        else ⟨t, some (match mode with | .Max => entry.max | .Average => entry.average)⟩
    point :: extractLoop data mode reso rrdStart rrdEnd n (wadd t reso) ((index + 1) % 70)

/-- The series selected by a timeframe (the `match timeframe` of `extract_data`). -/
def RRD.series (rrd : RRD) : RRDTimeFrameResolution → Fin 70 → RRDEntry
  | .Hour => rrd.hour
  | .Day => rrd.day
  | .Week => rrd.week
  | .Month => rrd.month
  | .Year => rrd.year

/-- `RRD::extract_data`: report 70 slots aligned to the timeframe's resolution,
null outside the RRD's own window or where the slot holds no samples. -/
def RRD.extract_data (rrd : RRD) (epoch : Nat) (tf : RRDTimeFrameResolution)
    (mode : RRDMode) : List DataPoint :=
  let reso := tf.val
  let e := reso * (epoch / reso)
  let start := wsub e (reso * RRD_DATA_ENTRIES)
  let rrdEnd := reso * (rrd.last_update / reso)
  let rrdStart := wsub rrdEnd (reso * RRD_DATA_ENTRIES)
  let data := rrd.series tf
  extractLoop data mode reso rrdStart rrdEnd RRD_DATA_ENTRIES start ((start / reso) % 70)

/-- One line of `rrd.journal`, parsed. -/
structure JournalEntry where
  time : Nat
  value : ℚ
  dst : DST
  rel_path : String

/-- The state carried through `RRDCache::apply_journal_locked`: the in-RAM RRD
map and the memoized `last_update_map` of the `get_last_update` closure. -/
structure ApplyState where
  rrdMap : String → Option RRD
  lum : String → Option Nat

/-- The memoizing `get_last_update` closure: return the memoized last update of
`rel_path`, or memoize and return `rrd.last_update` on first use. -/
def getLastUpdate (path : String) (rrd : RRD) (lum : String → Option Nat) :
    Nat × (String → Option Nat) :=
  match lum path with
  | some t => (t, lum)
  | none => (rrd.last_update, fun p => if p = path then some rrd.last_update else lum p)

/-- One iteration of the journal loop of `apply_journal_locked`: apply the entry
to its RRD when `entry.time` exceeds the memoized last update, loading (`load`,
standing for `RRD::load` with fallback `RRD::new`) when the path is not in RAM. -/
def applyEntry (load : String → DST → RRD) (st : ApplyState) (e : JournalEntry) : ApplyState :=
  match st.rrdMap e.rel_path with
  | some rrd =>
    let r := getLastUpdate e.rel_path rrd st.lum
    if e.time > r.1 then
      { rrdMap := fun p => if p = e.rel_path then some (rrd.update e.time e.value)
                           else st.rrdMap p,
        lum := r.2 }
    else { st with lum := r.2 }
  | none =>
    let rrd := load e.rel_path e.dst
    let r := getLastUpdate e.rel_path rrd st.lum
    let rrd' := if e.time > r.1 then rrd.update e.time e.value else rrd
    { rrdMap := fun p => if p = e.rel_path then some rrd' else st.rrdMap p,
      lum := r.2 }

/-- The journal-replay part of `RRDCache::apply_journal_locked`: fold the parsed
journal over the in-RAM map with a fresh memoization map. -/
def applyJournal (load : String → DST → RRD) (entries : List JournalEntry)
    (m : String → Option RRD) : String → Option RRD :=
  (entries.foldl (applyEntry load) { rrdMap := m, lum := fun _ => none }).rrdMap

/-- Consistency of the memoization map with the RRD map: every memoized last
update belongs to a present RRD and does not exceed its current last update. -/
def LumConsistent (st : ApplyState) : Prop :=
  ∀ p t, st.lum p = some t → ∃ r, st.rrdMap p = some r ∧ t ≤ r.last_update

end Rrd

/-! ## Theorems -/

theorem wadd_eq_of_lt {a b : Nat} (h : a + b < U64) : wadd a b = a + b := by
  simp [wadd, Nat.mod_eq_of_lt h]

theorem wsub_eq_of_le {a b : Nat} (hb : b ≤ a) (ha : a < U64) : wsub a b = a - b := by
  have hbU : b < U64 := lt_of_le_of_lt hb ha
  have h1 : b % U64 = b := Nat.mod_eq_of_lt hbU
  have h2 : a + U64 - b = (a - b) + U64 := by omega
  have h3 : a - b < U64 := lt_of_le_of_lt (Nat.sub_le a b) ha
  simp [wsub, h1, h2, Nat.add_mod_right, Nat.mod_eq_of_lt h3]

namespace Tape

theorem readBlock_checkBuffer_error (s : BlockedReader) (f : BlockHeader)
    (fr : List BlockHeader) (e : TapeErr)
    (hfr : s.frames = f :: fr) (hcb : checkBuffer f s.seqNr = .error e) :
    readBlock true s = ({ s with frames := fr, buffer := f }, .error e) := by
  unfold readBlock
  rw [hfr]
  simp [hcb]

theorem read_refill_error (s : BlockedReader) (bufLen : Nat) (s' : BlockedReader) (e : TapeErr)
    (hre : s.readError = false) (hg : s.gotEod = false)
    (hrest : (s.buffer.size : Int) - (s.readPos : Int) ≤ 0)
    (hrb : readBlock true s = (s', .error e)) :
    read s bufLen = ({ s' with readError := true }, .error e) := by
  unfold read
  simp [hre, hrest, hg, hrb]

/-- Claim C5: for every frame the BlockedReader inspects, a magic number
different from the expected tape block magic, a sequence number different from
the expected next one, a payload size beyond the block payload capacity, or a
zero payload size without the end-of-stream flag, each make `check_buffer`
fail with the corresponding fatal error (not_our_stream, out_of_order,
malformed), and a `read` call that inspects such a frame fails with that error
and poisons the reader. -/
theorem check_buffer_fatal_errors (f : BlockHeader) (seq : Nat) :
    (f.magic ≠ MAGIC → checkBuffer f seq = .error .notOurStream) ∧
    (f.magic = MAGIC → seq ≠ f.seqNr → checkBuffer f seq = .error .outOfOrder) ∧
    (f.magic = MAGIC → seq = f.seqNr → f.size > PAYLOAD_CAP →
      checkBuffer f seq = .error .malformedSize) ∧
    (f.magic = MAGIC → seq = f.seqNr → f.size = 0 → f.flags.endOfStream = false →
      checkBuffer f seq = .error .malformedZero) ∧
    (∀ s : BlockedReader, ∀ bufLen : Nat, ∀ fr : List BlockHeader, ∀ e : TapeErr,
      s.readError = false → s.gotEod = false →
      (s.buffer.size : Int) - (s.readPos : Int) ≤ 0 →
      s.frames = f :: fr → s.seqNr = seq → checkBuffer f seq = .error e →
      (read s bufLen).2 = .error e ∧ (read s bufLen).1.readError = true) := by
  refine ⟨?_, ?_, ?_, ?_, ?_⟩
  · intro h; simp [checkBuffer, h]
  · intro h1 h2; simp [checkBuffer, h1, h2]
  · intro h1 h2 h3
    simp [checkBuffer, h1, h2, h3]
  · intro h1 h2 h3 h4
    simp [checkBuffer, h1, h2, h3, h4, PAYLOAD_CAP, BLOCK_SIZE, HEADER_SIZE]
  · intro s bufLen fr e hre hg hrest hfr hseq hcb
    have hrb : readBlock true s = ({ s with frames := fr, buffer := f }, .error e) :=
      readBlock_checkBuffer_error s f fr e hfr (by rw [hseq]; exact hcb)
    rw [read_refill_error s bufLen _ e hre hg hrest hrb]
    exact ⟨rfl, rfl⟩

/-- Witness for C5 at a concrete bad frame: a frame with wrong magic makes
`check_buffer` fail with the not-our-stream error. -/
theorem check_buffer_fatal_errors_witness :
    checkBuffer ⟨0, ⟨false, false⟩, 0, 1, []⟩ 0 = .error .notOurStream :=
  (check_buffer_fatal_errors ⟨0, ⟨false, false⟩, 0, 1, []⟩ 0).1 (by decide)

/-- Claim C9: after any fatal error during a `read()` call, the reader is
poisoned: every later `read()` fails with the internal "read after error"
error (and returns no data), because any erroring `read` sets `read_error`
and a reader with `read_error` set always fails immediately. -/
theorem read_poisoned_after_error :
    (∀ s : BlockedReader, ∀ n : Nat, s.readError = true →
      read s n = (s, .error .poisoned)) ∧
    (∀ s : BlockedReader, ∀ n : Nat, ∀ s' : BlockedReader, ∀ e : TapeErr,
      read s n = (s', .error e) → s'.readError = true) ∧
    (∀ s : BlockedReader, ∀ n : Nat, ∀ s' : BlockedReader, ∀ e : TapeErr,
      read s n = (s', .error e) → ∀ m : Nat, read s' m = (s', .error .poisoned)) := by
  have h1 : ∀ s : BlockedReader, ∀ n : Nat, s.readError = true →
      read s n = (s, .error .poisoned) := by
    intro s n h
    unfold read
    simp [h]
  have h2 : ∀ s : BlockedReader, ∀ n : Nat, ∀ s' : BlockedReader, ∀ e : TapeErr,
      read s n = (s', .error e) → s'.readError = true := by
    intro s n s' e h
    unfold read at h
    by_cases hre : s.readError = true
    · rw [if_pos hre] at h
      rw [Prod.mk.injEq] at h
      rw [← h.1]
      exact hre
    · rw [if_neg hre] at h
      simp only [] at h
      by_cases hc : ((s.buffer.size : Int) - (s.readPos : Int) ≤ 0) ∧ s.gotEod = false
      · rw [if_pos hc] at h
        cases hrb : readBlock true s with
        | mk s1 r =>
          rw [hrb] at h
          cases r with
          | error e1 =>
            rw [Prod.mk.injEq] at h
            rw [← h.1]
          | ok len =>
            simp only [readCopy] at h
            split at h
            · rw [Prod.mk.injEq] at h
              exact absurd h.2 (by simp)
            · rw [Prod.mk.injEq] at h
              exact absurd h.2 (by simp)
      · rw [if_neg hc] at h
        simp only [readCopy] at h
        split at h
        · rw [Prod.mk.injEq] at h
          exact absurd h.2 (by simp)
        · rw [Prod.mk.injEq] at h
          exact absurd h.2 (by simp)
  exact ⟨h1, h2, fun s n s' e h m => h1 s' m (h2 s n s' e h)⟩

/-- Witness for C9 at a concrete poisoned reader state. -/
theorem read_poisoned_after_error_witness :
    read ⟨[], ⟨0, ⟨false, false⟩, 0, 0, []⟩, 0, false, false, false, true, 0⟩ 1 =
      (⟨[], ⟨0, ⟨false, false⟩, 0, 0, []⟩, 0, false, false, false, true, 0⟩,
        .error .poisoned) :=
  read_poisoned_after_error.1 ⟨[], ⟨0, ⟨false, false⟩, 0, 0, []⟩, 0, false, false, false, true, 0⟩
    1 rfl

/-- Claim C10: `is_incomplete` and `has_end_marker` return an error rather than
a boolean before end-of-data has been reached; `is_incomplete` additionally
errors when end-of-data was reached without an end marker; both return a
boolean exactly once `got_eod` holds (and, for `is_incomplete`, the end marker
was found). -/
theorem eod_gates_status_queries (s : BlockedReader) :
    (s.gotEod = false →
      isIncomplete s = .error .eodNotReached ∧ hasEndMarker s = .error .eodNotReached) ∧
    (s.gotEod = true → s.foundEndMarker = false →
      isIncomplete s = .error .noEndMarkerFound) ∧
    (s.gotEod = true → hasEndMarker s = .ok s.foundEndMarker) ∧
    (s.gotEod = true → s.foundEndMarker = true → isIncomplete s = .ok s.incomplete) := by
  refine ⟨?_, ?_, ?_, ?_⟩
  · intro h; exact ⟨by simp [isIncomplete, h], by simp [hasEndMarker, h]⟩
  · intro h1 h2; simp [isIncomplete, h1, h2]
  · intro h; simp [hasEndMarker, h]
  · intro h1 h2; simp [isIncomplete, h1, h2]

/-- Witness for C10 at two concrete reader states: before EOD the query errors,
after EOD with an end marker it returns the boolean. -/
theorem eod_gates_status_queries_witness :
    isIncomplete ⟨[], ⟨0, ⟨false, false⟩, 0, 0, []⟩, 0, false, false, false, false, 0⟩ =
      .error .eodNotReached ∧
    hasEndMarker ⟨[], ⟨0, ⟨true, false⟩, 0, 0, []⟩, 1, true, false, true, false, 0⟩ =
      .ok true :=
  ⟨((eod_gates_status_queries
      ⟨[], ⟨0, ⟨false, false⟩, 0, 0, []⟩, 0, false, false, false, false, 0⟩).1 rfl).1,
   (eod_gates_status_queries
      ⟨[], ⟨0, ⟨true, false⟩, 0, 0, []⟩, 1, true, false, true, false, 0⟩).2.2.1 rfl⟩

theorem skipLoop_eod (s : BlockedReader) (bytes : Nat) (h : s.gotEod = true) :
    skipLoop s bytes = (s, .ok bytes) := by
  conv_lhs => unfold skipLoop
  rw [dif_pos h]

theorem skipLoop_step_ok (s s' : BlockedReader) (n bytes : Nat)
    (hg : s.gotEod = false) (h : readBlock false s = (s', .ok n)) :
    skipLoop s bytes = skipLoop s' (bytes + n) := by
  conv_lhs => unfold skipLoop
  rw [dif_neg (by simp [hg])]
  split
  · rename_i s1 e heq
    rw [h] at heq
    simp at heq
  · rename_i s1 m heq
    rw [h] at heq
    cases heq
    rfl

theorem skipLoop_wf : ∀ (frames : List BlockHeader) (s : BlockedReader) (bytes : Nat),
    s.frames = frames → s.gotEod = false → wfDataFrames s.seqNr frames →
    (skipLoop s bytes).2 = .ok (bytes + framesPayload frames) := by
  intro frames
  induction frames with
  | nil =>
    intro s bytes hf hg _
    have hrb : readBlock false s =
        ({ s with gotEod := true, readPos := PAYLOAD_CAP }, .ok 0) := by
      unfold readBlock
      rw [hf]
      simp
    rw [skipLoop_step_ok s _ 0 bytes hg hrb, skipLoop_eod _ _ rfl]
    simp [framesPayload]
  | cons f rest ih =>
    intro s bytes hf hg hwf
    unfold wfDataFrames at hwf
    obtain ⟨hm, hs, hpos, hle, hfem, hwrest⟩ := hwf
    have hcb : checkBuffer f s.seqNr = .ok (f.size, false) := by
      unfold checkBuffer
      simp [hm, hs, hfem, Nat.not_lt.mpr hle, Nat.pos_iff_ne_zero.mp hpos]
    have hrb : readBlock false s = ({ s with frames := rest, buffer := f, seqNr := (s.seqNr + 1) % U32, readPos := 0 }, .ok f.size) := by
      unfold readBlock
      rw [hf]
      simp [hcb, hfem]
    rw [skipLoop_step_ok s _ f.size bytes hg hrb]
    have hrec := ih { s with frames := rest, buffer := f, seqNr := (s.seqNr + 1) % U32, readPos := 0 } (bytes + f.size) rfl hg hwrest
    rw [hrec]
    simp [framesPayload]
    omega

/-- Claim C6: when the medium reaches physical end-of-file before an
end-of-stream frame was seen, the truncated-stream error is surfaced only under
end-marker enforcement: `read()` (which enforces) fails with it, a refill
without enforcement returns zero bytes without error, `read()` after end of
data returns zero once the readable bytes are consumed, and `skip_data` drains
to the end returning the number of remaining payload bytes without an error
for the missing end marker. -/
theorem truncated_stream_handling :
    (∀ s : BlockedReader, ∀ n : Nat, s.readError = false → s.gotEod = false →
      s.foundEndMarker = false → s.frames = [] →
      (s.buffer.size : Int) - (s.readPos : Int) ≤ 0 →
      (read s n).2 = .error .truncatedStream ∧ (read s n).1.readError = true) ∧
    (∀ s : BlockedReader, s.frames = [] → (readBlock false s).2 = .ok 0) ∧
    (∀ s : BlockedReader, s.frames = [] → s.foundEndMarker = true →
      (readBlock true s).2 = .ok 0) ∧
    (∀ s : BlockedReader, ∀ n : Nat, s.readError = false → s.gotEod = true →
      (s.buffer.size : Int) - (s.readPos : Int) ≤ 0 → read s n = (s, .ok [])) ∧
    (∀ s : BlockedReader, s.gotEod = false → wfDataFrames s.seqNr s.frames →
      (skipData s).2 = .ok ((if 0 < (s.buffer.size : Int) - (s.readPos : Int)
        then ((s.buffer.size : Int) - (s.readPos : Int)).toNat else 0) +
          framesPayload s.frames)) := by
  refine ⟨?_, ?_, ?_, ?_, ?_⟩
  · intro s n hre hg hfem hfr hrest
    have hrb : readBlock true s =
        ({ s with gotEod := true, readPos := PAYLOAD_CAP }, .error .truncatedStream) := by
      unfold readBlock
      rw [hfr]
      simp [hfem]
    rw [read_refill_error s n _ _ hre hg hrest hrb]
    exact ⟨rfl, rfl⟩
  · intro s hfr
    unfold readBlock
    rw [hfr]
    simp
  · intro s hfr hfem
    unfold readBlock
    rw [hfr]
    simp [hfem]
  · intro s n hre hg hrest
    unfold read
    rw [if_neg (by simp [hre])]
    simp only []
    rw [if_neg (by simp [hg])]
    simp [readCopy, hrest]
  · intro s hg hwf
    unfold skipData
    simp only []
    exact skipLoop_wf s.frames s _ rfl hg hwf

/-- Witness for C6 at concrete states: truncated stream error on enforced read
at EOF, and `skip_data` draining a one-frame tape returns its 3 payload bytes. -/
theorem truncated_stream_handling_witness :
    ((read ⟨[], ⟨0, ⟨false, false⟩, 0, 0, []⟩, 1, false, false, false, false, 0⟩ 1).2 =
        .error .truncatedStream ∧
      (read ⟨[], ⟨0, ⟨false, false⟩, 0, 0, []⟩, 1, false, false, false, false, 0⟩ 1).1.readError =
        true) ∧
    (skipData ⟨[⟨MAGIC, ⟨false, false⟩, 1, 3, [7, 8, 9]⟩], ⟨0, ⟨false, false⟩, 0, 0, []⟩,
        1, false, false, false, false, 0⟩).2 = .ok (0 + 3) :=
  ⟨truncated_stream_handling.1 ⟨[], ⟨0, ⟨false, false⟩, 0, 0, []⟩, 1, false, false, false,
      false, 0⟩ 1 rfl rfl rfl rfl (by decide),
   truncated_stream_handling.2.2.2.2 ⟨[⟨MAGIC, ⟨false, false⟩, 1, 3, [7, 8, 9]⟩],
      ⟨0, ⟨false, false⟩, 0, 0, []⟩, 1, false, false, false, false, 0⟩ rfl
      ⟨rfl, rfl, by norm_num, by norm_num [PAYLOAD_CAP, BLOCK_SIZE, HEADER_SIZE], rfl, trivial⟩⟩

theorem PAYLOAD_CAP_pos : 0 < PAYLOAD_CAP := by norm_num [PAYLOAD_CAP, BLOCK_SIZE, HEADER_SIZE]

theorem padPayload_length (c : List Nat) (h : c.length ≤ PAYLOAD_CAP) :
    (padPayload c).length = PAYLOAD_CAP := by
  simp [padPayload]
  omega

theorem padPayload_take (c : List Nat) : (padPayload c).take c.length = c := by
  simp [padPayload, List.take_left]

theorem writeFrames_length (n : Nat) : ∀ (data : List Nat) (k : Nat) (i : Bool),
    data.length ≤ n →
    (writeFrames k data i).length = data.length / PAYLOAD_CAP + 1 := by
  induction n with
  | zero =>
    intro data k i h
    have hz : data.length = 0 := Nat.le_zero.mp h
    have hlt : data.length < PAYLOAD_CAP := by rw [hz]; exact PAYLOAD_CAP_pos
    unfold writeFrames
    rw [dif_pos hlt]
    simp [hz]
  | succ n ih =>
    intro data k i h
    by_cases hlt : data.length < PAYLOAD_CAP
    · unfold writeFrames
      rw [dif_pos hlt]
      simp [Nat.div_eq_of_lt hlt]
    · unfold writeFrames
      rw [dif_neg hlt]
      have hge : PAYLOAD_CAP ≤ data.length := Nat.not_lt.mp hlt
      have hdrop : (data.drop PAYLOAD_CAP).length = data.length - PAYLOAD_CAP := by simp
      have hrec := ih (data.drop PAYLOAD_CAP) (k + 1) i
        (by rw [hdrop]; have hp := PAYLOAD_CAP_pos; omega)
      simp only [List.length_cons, hrec, hdrop]
      rw [Nat.div_eq_sub_div PAYLOAD_CAP_pos hge]

theorem writeFrames_encodedLen (n : Nat) : ∀ (data : List Nat) (k : Nat) (i : Bool),
    data.length ≤ n →
    encodedLen (writeFrames k data i) = (data.length / PAYLOAD_CAP + 1) * BLOCK_SIZE := by
  induction n with
  | zero =>
    intro data k i h
    have hz : data.length = 0 := Nat.le_zero.mp h
    have hlt : data.length < PAYLOAD_CAP := by rw [hz]; exact PAYLOAD_CAP_pos
    unfold writeFrames
    rw [dif_pos hlt]
    simp [encodedLen, mkEndFrame, BlockHeader.encodedLen,
      padPayload_length data (le_of_lt hlt), hz]
    norm_num [PAYLOAD_CAP, BLOCK_SIZE, HEADER_SIZE]
  | succ n ih =>
    intro data k i h
    by_cases hlt : data.length < PAYLOAD_CAP
    · unfold writeFrames
      rw [dif_pos hlt]
      simp [encodedLen, mkEndFrame, BlockHeader.encodedLen,
        padPayload_length data (le_of_lt hlt), Nat.div_eq_of_lt hlt]
      norm_num [PAYLOAD_CAP, BLOCK_SIZE, HEADER_SIZE]
    · unfold writeFrames
      rw [dif_neg hlt]
      have hge : PAYLOAD_CAP ≤ data.length := Nat.not_lt.mp hlt
      have htk : (data.take PAYLOAD_CAP).length = PAYLOAD_CAP := by
        simp [Nat.min_eq_left hge]
      have hdrop : (data.drop PAYLOAD_CAP).length = data.length - PAYLOAD_CAP := by simp
      have hrec := ih (data.drop PAYLOAD_CAP) (k + 1) i (by rw [hdrop]; have hp := PAYLOAD_CAP_pos; omega)
      simp only [encodedLen, List.map_cons, List.sum_cons] at hrec ⊢
      rw [hrec, hdrop]
      have hhd : (mkDataFrame k (data.take PAYLOAD_CAP)).encodedLen = BLOCK_SIZE := by
        simp [mkDataFrame, BlockHeader.encodedLen,
          padPayload_length _ (le_of_eq htk), htk]
        norm_num [PAYLOAD_CAP, BLOCK_SIZE, HEADER_SIZE]
      rw [hhd, Nat.div_eq_sub_div PAYLOAD_CAP_pos hge]
      ring

theorem checkBuffer_endFrame (k : Nat) (data : List Nat) (inc : Bool) (seq : Nat)
    (hlen : data.length < PAYLOAD_CAP) (hseq : seq = k % U32) :
    checkBuffer (mkEndFrame k data inc) seq = .ok (data.length, true) := by
  unfold checkBuffer mkEndFrame
  simp [hseq]
  omega

theorem checkBuffer_dataFrame (k : Nat) (c : List Nat) (seq : Nat)
    (hclen : c.length = PAYLOAD_CAP) (hseq : seq = k % U32) :
    checkBuffer (mkDataFrame k c) seq = .ok (c.length, false) := by
  unfold checkBuffer mkDataFrame
  simp [hseq, hclen]
  have := PAYLOAD_CAP_pos
  omega

theorem readBlock_eos_general (s : BlockedReader) (f : BlockHeader)
    (hfr : s.frames = [f])
    (hcb : checkBuffer f s.seqNr = .ok (f.size, true))
    (hinc : f.flags.incomplete = false) :
    readBlock true s = ({ s with frames := [], buffer := f, seqNr := (s.seqNr + 1) % U32, foundEndMarker := true, incomplete := false, gotEod := true, readPos := 0 }, .ok f.size) := by
  unfold readBlock
  rw [hfr]
  simp [hcb, consumeEofMarker, hinc]

theorem readBlock_data_general (s : BlockedReader) (f : BlockHeader)
    (rest : List BlockHeader)
    (hfr : s.frames = f :: rest)
    (hcb : checkBuffer f s.seqNr = .ok (f.size, false)) :
    readBlock true s = ({ s with frames := rest, buffer := f, seqNr := (s.seqNr + 1) % U32, readPos := 0 }, .ok f.size) := by
  unfold readBlock
  rw [hfr]
  simp [hcb]

theorem read_refill_ok (s s' : BlockedReader) (len bufLen : Nat)
    (hre : s.readError = false) (hg : s.gotEod = false)
    (hrest : (s.buffer.size : Int) - (s.readPos : Int) ≤ 0)
    (hrb : readBlock true s = (s', .ok len)) :
    read s bufLen = readCopy s' (len : Int) bufLen := by
  unfold read
  simp [hre, hrest, hg, hrb]

theorem read_no_refill (s : BlockedReader) (bufLen : Nat)
    (hre : s.readError = false)
    (hcond : ¬ (((s.buffer.size : Int) - (s.readPos : Int) ≤ 0) ∧ s.gotEod = false)) :
    read s bufLen = readCopy s ((s.buffer.size : Int) - (s.readPos : Int)) bufLen := by
  unfold read
  simp only [hre, Bool.false_eq_true, if_false]
  rw [if_neg hcond]

theorem readCopy_nonpos (s : BlockedReader) (rest : Int) (bufLen : Nat)
    (h : rest ≤ 0) : readCopy s rest bufLen = (s, .ok []) := by
  unfold readCopy
  rw [if_pos h]

theorem readCopy_small (s : BlockedReader) (len bufLen : Nat)
    (hpos : 0 < len) (hle : len ≤ bufLen) :
    readCopy s (len : Int) bufLen =
      ({ s with readPos := s.readPos + len },
        .ok ((s.buffer.payload.drop s.readPos).take len)) := by
  unfold readCopy
  rw [if_neg (by exact_mod_cast Nat.not_le.mpr hpos)]
  rw [if_neg (by exact_mod_cast Nat.not_lt.mpr hle)]
  simp

theorem read_at_eod (s : BlockedReader) (bufLen : Nat)
    (hre : s.readError = false) (hg : s.gotEod = true)
    (hrest : (s.buffer.size : Int) - (s.readPos : Int) ≤ 0) :
    read s bufLen = (s, .ok []) := by
  rw [read_no_refill s bufLen hre (by simp [hg])]
  exact readCopy_nonpos s _ bufLen hrest

theorem PAYLOAD_CAP_lt_BLOCK_SIZE : PAYLOAD_CAP < BLOCK_SIZE := by
  norm_num [PAYLOAD_CAP, BLOCK_SIZE, HEADER_SIZE]

theorem readChunks_last (data : List Nat) (fuel k : Nat) (s : BlockedReader)
    (acc : List Nat)
    (hlt : data.length < PAYLOAD_CAP)
    (hfuel : 2 ≤ fuel)
    (hfr : s.frames = writeFrames k data false)
    (hseq : s.seqNr = k % U32)
    (hg : s.gotEod = false) (hre : s.readError = false)
    (hrest : s.buffer.size ≤ s.readPos) :
    readToEndFuel fuel s acc = .ok (acc ++ data) := by
  have hwf : writeFrames k data false = [mkEndFrame k data false] := by
    unfold writeFrames
    rw [dif_pos hlt]
  obtain ⟨f, hf⟩ : ∃ f, mkEndFrame k data false = f := ⟨_, rfl⟩
  have hsize : f.size = data.length := by rw [← hf]; rfl
  have hpay : f.payload = padPayload data := by rw [← hf]; rfl
  have hinc : f.flags.incomplete = false := by rw [← hf]; rfl
  have hcb : checkBuffer f s.seqNr = .ok (f.size, true) := by
    rw [hsize, ← hf]
    exact checkBuffer_endFrame k data false s.seqNr hlt hseq
  have hfr' : s.frames = [f] := by rw [hfr, hwf, hf]
  have hrb := readBlock_eos_general s f hfr' hcb hinc
  have hrestI : (s.buffer.size : Int) - (s.readPos : Int) ≤ 0 := by omega
  have hread := read_refill_ok s _ f.size BLOCK_SIZE hre hg hrestI hrb
  obtain ⟨fuel2, rfl⟩ : ∃ m, fuel = m + 2 := ⟨fuel - 2, by omega⟩
  rcases data with _ | ⟨d, ds⟩
  · have hz : f.size = 0 := by rw [hsize]; rfl
    rw [hz] at hread
    simp only [readToEndFuel]
    rw [hread, readCopy_nonpos _ _ _ (by norm_num)]
    simp
  · have hpos : 0 < (d :: ds).length := by simp
    have hle : (d :: ds).length ≤ BLOCK_SIZE := by
      have := PAYLOAD_CAP_lt_BLOCK_SIZE
      omega
    rw [hsize] at hread
    rw [readCopy_small _ _ _ hpos hle] at hread
    simp only [] at hread
    rw [hpay, List.drop_zero, padPayload_take] at hread
    simp only [readToEndFuel]
    rw [hread]
    simp only [List.isEmpty_cons, Bool.false_eq_true, if_false]
    have hread2 := read_at_eod ({ s with frames := [], buffer := f, seqNr := (s.seqNr + 1) % U32, foundEndMarker := true, incomplete := false, gotEod := true, readPos := 0 + (d :: ds).length }) BLOCK_SIZE hre rfl (by simp only []; rw [hsize]; omega)
    rw [hread2]
    simp

theorem readToEndFuel_succ (m : Nat) (s : BlockedReader) (acc : List Nat) :
    readToEndFuel (m + 1) s acc =
      match read s BLOCK_SIZE with
      | (_, .error e) => .error e
      | (s', .ok bytes) => if bytes.isEmpty then .ok acc else readToEndFuel m s' (acc ++ bytes) := rfl

theorem openReader_eos_general (f : BlockHeader)
    (hcb : checkBuffer f 0 = .ok (f.size, true)) (hinc : f.flags.incomplete = false) :
    openReader [f] = .ok ⟨[], f, 1, true, false, true, false, 0⟩ := by
  unfold openReader
  simp [hcb, consumeEofMarker, hinc]

theorem openReader_data_general (f : BlockHeader) (rest : List BlockHeader)
    (hcb : checkBuffer f 0 = .ok (f.size, false)) :
    openReader (f :: rest) = .ok ⟨rest, f, 1, false, false, false, false, 0⟩ := by
  unfold openReader
  simp [hcb]

theorem readEndState (f : BlockHeader) (q : Nat) (inc : Bool) (data : List Nat)
    (fuel : Nat) (acc : List Nat)
    (hlt : data.length < PAYLOAD_CAP) (hfuel : 2 ≤ fuel)
    (hsize : f.size = data.length) (hpay : f.payload = padPayload data) :
    readToEndFuel fuel ⟨[], f, q, true, inc, true, false, 0⟩ acc = .ok (acc ++ data) := by
  obtain ⟨m, rfl⟩ : ∃ m, fuel = m + 2 := ⟨fuel - 2, by omega⟩
  rcases data with _ | ⟨d, ds⟩
  · have hz : f.size = 0 := by simpa using hsize
    have h0 := read_at_eod ⟨[], f, q, true, inc, true, false, 0⟩ BLOCK_SIZE rfl rfl
      (by simp only []; omega)
    simp only [readToEndFuel]
    rw [h0]
    simp
  · have hread := read_no_refill ⟨[], f, q, true, inc, true, false, 0⟩ BLOCK_SIZE rfl
      (by simp)
    simp only [Nat.cast_zero, sub_zero] at hread
    rw [hsize] at hread
    have hpos : 0 < (d :: ds).length := by simp
    have hle : (d :: ds).length ≤ BLOCK_SIZE := by
      have := PAYLOAD_CAP_lt_BLOCK_SIZE
      omega
    rw [readCopy_small _ _ _ hpos hle] at hread
    simp only [] at hread
    rw [hpay, List.drop_zero, padPayload_take] at hread
    simp only [readToEndFuel]
    rw [hread]
    simp only [List.isEmpty_cons, Bool.false_eq_true, if_false]
    have hread2 := read_at_eod ⟨[], f, q, true, inc, true, false, 0 + (d :: ds).length⟩
      BLOCK_SIZE rfl rfl (by simp only []; rw [hsize]; omega)
    rw [hread2]
    simp

theorem readChunks (n : Nat) : ∀ (data : List Nat) (fuel k : Nat) (s : BlockedReader)
    (acc : List Nat),
    data.length ≤ n →
    data.length / PAYLOAD_CAP + 2 ≤ fuel →
    s.frames = writeFrames k data false →
    s.seqNr = k % U32 →
    s.gotEod = false → s.readError = false →
    s.buffer.size ≤ s.readPos →
    readToEndFuel fuel s acc = .ok (acc ++ data) := by
  induction n with
  | zero =>
    intro data fuel k s acc hn hfuel hfr hseq hg hre hrest
    have hlt : data.length < PAYLOAD_CAP := by
      have := PAYLOAD_CAP_pos
      omega
    exact readChunks_last data fuel k s acc hlt (le_trans (Nat.le_add_left 2 _) hfuel) hfr hseq hg hre hrest
  | succ n ih =>
    intro data fuel k s acc hn hfuel hfr hseq hg hre hrest
    by_cases hlt : data.length < PAYLOAD_CAP
    · exact readChunks_last data fuel k s acc hlt (le_trans (Nat.le_add_left 2 _) hfuel) hfr hseq hg hre hrest
    · have hge : PAYLOAD_CAP ≤ data.length := Nat.not_lt.mp hlt
      have hwf : writeFrames k data false =
          mkDataFrame k (data.take PAYLOAD_CAP) ::
            writeFrames (k + 1) (data.drop PAYLOAD_CAP) false := by
        conv_lhs => unfold writeFrames
        rw [dif_neg hlt]
      have htk : (data.take PAYLOAD_CAP).length = PAYLOAD_CAP := by
        simp [Nat.min_eq_left hge]
      obtain ⟨f, hf⟩ : ∃ f, mkDataFrame k (data.take PAYLOAD_CAP) = f := ⟨_, rfl⟩
      have hsize : f.size = (data.take PAYLOAD_CAP).length := by rw [← hf]; rfl
      have hpay : f.payload = padPayload (data.take PAYLOAD_CAP) := by rw [← hf]; rfl
      have hcb : checkBuffer f s.seqNr = .ok (f.size, false) := by
        rw [hsize, ← hf]
        exact checkBuffer_dataFrame k (data.take PAYLOAD_CAP) s.seqNr htk hseq
      have hfr' : s.frames = f :: writeFrames (k + 1) (data.drop PAYLOAD_CAP) false := by
        rw [hfr, hwf, hf]
      have hrb := readBlock_data_general s f _ hfr' hcb
      have hrestI : (s.buffer.size : Int) - (s.readPos : Int) ≤ 0 := by omega
      have hread := read_refill_ok s _ f.size BLOCK_SIZE hre hg hrestI hrb
      have hpos : 0 < (data.take PAYLOAD_CAP).length := by
        rw [htk]
        exact PAYLOAD_CAP_pos
      have hle : (data.take PAYLOAD_CAP).length ≤ BLOCK_SIZE := by
        rw [htk]
        exact le_of_lt PAYLOAD_CAP_lt_BLOCK_SIZE
      rw [hsize] at hread
      rw [readCopy_small _ _ _ hpos hle] at hread
      simp only [] at hread
      rw [hpay, List.drop_zero, padPayload_take] at hread
      have h2f : 2 ≤ fuel := le_trans (Nat.le_add_left 2 _) hfuel
      obtain ⟨fuel1, rfl⟩ : ∃ m, fuel = m + 1 := ⟨fuel - 1, by omega⟩
      simp only [readToEndFuel]
      rw [hread]
      have hne : (data.take PAYLOAD_CAP).isEmpty = false := by
        cases hc : data.take PAYLOAD_CAP with
        | nil =>
          rw [hc] at htk
          simp at htk
          have := PAYLOAD_CAP_pos
          omega
        | cons a as => rfl
      simp only [hne, Bool.false_eq_true, if_false]
      have hdl : (data.drop PAYLOAD_CAP).length = data.length - PAYLOAD_CAP := by simp
      have hdiv := Nat.div_eq_sub_div PAYLOAD_CAP_pos hge
      have happ := ih (data.drop PAYLOAD_CAP) fuel1 (k + 1) ({ s with frames := writeFrames (k + 1) (data.drop PAYLOAD_CAP) false, buffer := f, seqNr := (s.seqNr + 1) % U32, readPos := 0 + (data.take PAYLOAD_CAP).length }) (acc ++ data.take PAYLOAD_CAP) (by rw [hdl]; have := PAYLOAD_CAP_pos; omega) (by rw [hdl]; omega) rfl (by simp only []; rw [hseq]; exact Nat.mod_add_mod k U32 1) hg hre (by simp only []; rw [hsize]; omega)
      rw [happ, List.append_assoc, List.take_append_drop]

/-- Claim C1: for every byte string `B`, writing `B` through the blocked tape
writer and calling `finish`, then reading the resulting tape data back through
`BlockedReader` until end of stream, yields exactly `B`; and the encoded tape
data length is a multiple of the fixed tape block size. -/
theorem tape_roundtrip (B : List Nat) :
    readAll (framedWrite B) = .ok B ∧ BLOCK_SIZE ∣ encodedLen (framedWrite B) := by
  constructor
  · by_cases hlt : B.length < PAYLOAD_CAP
    · have hwf : writeFrames 0 B false = [mkEndFrame 0 B false] := by
        unfold writeFrames
        rw [dif_pos hlt]
      obtain ⟨f, hf⟩ : ∃ f, mkEndFrame 0 B false = f := ⟨_, rfl⟩
      have hsize : f.size = B.length := by rw [← hf]; rfl
      have hpay : f.payload = padPayload B := by rw [← hf]; rfl
      have hinc : f.flags.incomplete = false := by rw [← hf]; rfl
      have hcb : checkBuffer f 0 = .ok (f.size, true) := by
        rw [hsize, ← hf]
        exact checkBuffer_endFrame 0 B false 0 hlt (by simp)
      have hopen : openReader (framedWrite B) = .ok ⟨[], f, 1, true, false, true, false, 0⟩ := by
        rw [framedWrite, hwf, hf]
        exact openReader_eos_general f hcb hinc
      unfold readAll
      rw [hopen]
      unfold readToEnd
      have := readEndState f 1 false B (2 * ([] : List BlockHeader).length + 3) [] hlt
        (by simp) hsize hpay
      simpa using this
    · have hge : PAYLOAD_CAP ≤ B.length := Nat.not_lt.mp hlt
      have hwf : writeFrames 0 B false =
          mkDataFrame 0 (B.take PAYLOAD_CAP) :: writeFrames 1 (B.drop PAYLOAD_CAP) false := by
        conv_lhs => unfold writeFrames
        rw [dif_neg hlt]
      have htk : (B.take PAYLOAD_CAP).length = PAYLOAD_CAP := by
        simp [Nat.min_eq_left hge]
      obtain ⟨f, hf⟩ : ∃ f, mkDataFrame 0 (B.take PAYLOAD_CAP) = f := ⟨_, rfl⟩
      have hsize : f.size = (B.take PAYLOAD_CAP).length := by rw [← hf]; rfl
      have hpay : f.payload = padPayload (B.take PAYLOAD_CAP) := by rw [← hf]; rfl
      have hcb : checkBuffer f 0 = .ok (f.size, false) := by
        rw [hsize, ← hf]
        exact checkBuffer_dataFrame 0 (B.take PAYLOAD_CAP) 0 htk (by simp)
      have hopen : openReader (framedWrite B) =
          .ok ⟨writeFrames 1 (B.drop PAYLOAD_CAP) false, f, 1, false, false, false, false, 0⟩ := by
        rw [framedWrite, hwf, hf]
        exact openReader_data_general f _ hcb
      unfold readAll
      rw [hopen]
      simp only []
      unfold readToEnd
      have hread := read_no_refill ⟨writeFrames 1 (B.drop PAYLOAD_CAP) false, f, 1, false, false, false, false, 0⟩ BLOCK_SIZE rfl (by simp only []; rw [hsize, htk]; intro hcon; have := PAYLOAD_CAP_pos; omega)
      simp only [Nat.cast_zero, sub_zero] at hread
      rw [hsize] at hread
      have hpos : 0 < (B.take PAYLOAD_CAP).length := by
        rw [htk]
        exact PAYLOAD_CAP_pos
      have hle : (B.take PAYLOAD_CAP).length ≤ BLOCK_SIZE := by
        rw [htk]
        exact le_of_lt PAYLOAD_CAP_lt_BLOCK_SIZE
      rw [readCopy_small _ _ _ hpos hle] at hread
      simp only [] at hread
      rw [hpay, List.drop_zero, padPayload_take] at hread
      have hL := writeFrames_length (B.drop PAYLOAD_CAP).length (B.drop PAYLOAD_CAP) 1 false (le_refl _)
      have hm : 2 * (writeFrames 1 (B.drop PAYLOAD_CAP) false).length + 3 = (2 * (writeFrames 1 (B.drop PAYLOAD_CAP) false).length + 2) + 1 := by omega
      rw [hm, readToEndFuel_succ]
      rw [hread]
      have hne : (B.take PAYLOAD_CAP).isEmpty = false := by
        cases hc : B.take PAYLOAD_CAP with
        | nil =>
          rw [hc] at htk
          simp at htk
          have := PAYLOAD_CAP_pos
          omega
        | cons a as => rfl
      simp only [hne, Bool.false_eq_true, if_false]
      have hdl : (B.drop PAYLOAD_CAP).length = B.length - PAYLOAD_CAP := by simp
      have happ := readChunks (B.drop PAYLOAD_CAP).length (B.drop PAYLOAD_CAP) (2 * (writeFrames 1 (B.drop PAYLOAD_CAP) false).length + 2) 1 (⟨writeFrames 1 (B.drop PAYLOAD_CAP) false, f, 1, false, false, false, false, 0 + (B.take PAYLOAD_CAP).length⟩ : BlockedReader) ([] ++ B.take PAYLOAD_CAP) (le_refl _) (by rw [hL]; omega) rfl (by simp only []; norm_num [U32]) rfl rfl (by simp only []; rw [hsize]; omega)
      rw [happ, List.append_assoc, List.take_append_drop]
      simp
  · rw [framedWrite, writeFrames_encodedLen B.length B 0 false (le_refl _)]
    exact dvd_mul_left BLOCK_SIZE _

end Tape

namespace Snap

/-- Counterexample to C2 as stated: destroying a protected snapshot with the
force flag set is still refused with the protected error — force only skips
the lock acquisition, it does not permit destroying a protected snapshot. -/
theorem destroy_force_protected_counterexample :
    destroy ⟨true, true, true, true⟩ true = .error .protectedSnapshot ∧
    destroy ⟨true, true, true, true⟩ true ≠ .ok () := by
  constructor
  · rfl
  · intro h; cases h

/-- Claim C2 (amended): destroying a snapshot carrying the `.protected` marker
is refused with the protected error whenever the protection check is reached —
with the force flag set (force only skips locking), and without force whenever
both locks are acquirable; and a prune run (which destroys without force)
never removes a protected snapshot. -/
theorem destroy_protected_refused (s : SnapshotState) (force : Bool)
    (hp : s.isProtected = true) :
    (force = true → destroy s force = .error .protectedSnapshot) ∧
    (s.lockOk = true → s.manifestLockOk = true →
      destroy s force = .error .protectedSnapshot) ∧
    (∀ o : Prune.PruneOptions, ∀ policy : SnapshotState → Bool, ∀ dryRun : Bool,
      ∀ groups : List (List SnapshotState), ∀ removed : List SnapshotState,
      Prune.pruneDatastore o policy dryRun groups = .ok removed → s ∉ removed) := by
  refine ⟨?_, ?_, ?_⟩
  · intro hf
    simp [destroy, hf, hp]
  · intro hl hm
    simp [destroy, hp, hl, hm]
  · intro o policy dryRun groups removed hrun hmem
    have hdok : destroy s false = .ok () := by
      simp only [Prune.pruneDatastore, Except.ok.injEq] at hrun
      subst hrun
      simp only [List.mem_flatMap] at hmem
      obtain ⟨g, _, hg⟩ := hmem
      simp only [Prune.pruneGroup, List.mem_filter, Bool.and_eq_true,
        decide_eq_true_eq] at hg
      exact hg.2.2
    have : destroy s false ≠ .ok () := by
      unfold destroy
      rcases hl : s.lockOk with _ | _ <;> rcases hm : s.manifestLockOk with _ | _ <;>
        simp [hp, hl, hm]
    exact this hdok

/-- Witness for C2's amended theorem: a concrete protected snapshot is refused
with the protected error under force and under available locks. -/
theorem destroy_protected_refused_witness :
    destroy ⟨true, true, true, true⟩ true = .error .protectedSnapshot ∧
    destroy ⟨true, true, true, true⟩ false = .error .protectedSnapshot :=
  ⟨(destroy_protected_refused ⟨true, true, true, true⟩ true rfl).1 rfl,
   (destroy_protected_refused ⟨true, true, true, true⟩ false rfl).2.1 rfl rfl⟩

end Snap

namespace Prune

/-- Counterexample to C3 as stated: a prune run whose options leave every keep
bucket unset does not refuse with an empty-policy error — it completes
successfully, removing nothing, even for a group with a removable unprotected
snapshot. -/
theorem prune_empty_policy_counterexample :
    pruneDatastore ⟨none, none, none, none, none, none⟩ (fun _ => false) false
        [[⟨false, true, true, true⟩]] = .ok [] ∧
    pruneDatastore ⟨none, none, none, none, none, none⟩ (fun _ => false) false
        [[⟨false, true, true, true⟩]] ≠ .error .emptyPolicy := by
  constructor
  · rfl
  · intro h; cases h

/-- Claim C3 (amended): for every prune run whose options have all keep buckets
unset (more generally, whose policy keeps nothing), the pruner does not delete
any snapshot; instead of refusing with an error it treats the empty policy as
"keep all files" and completes successfully with nothing removed. -/
theorem prune_empty_policy_keeps_all (o : PruneOptions)
    (policy : Snap.SnapshotState → Bool) (dryRun : Bool)
    (groups : List (List Snap.SnapshotState))
    (h : keepsSomething o = false) :
    pruneDatastore o policy dryRun groups = .ok [] := by
  unfold pruneDatastore
  simp only [h, Bool.not_false, Except.ok.injEq]
  have : ∀ g : List Snap.SnapshotState, pruneGroup true policy dryRun g = [] := by
    intro g
    unfold pruneGroup
    simp
  simp [this, List.flatMap]

/-- Witness for C3's amended theorem at a concrete run with all buckets unset. -/
theorem prune_empty_policy_keeps_all_witness :
    pruneDatastore ⟨none, none, none, none, none, none⟩ (fun _ => false) false
        [[⟨false, true, true, true⟩], [⟨true, true, true, true⟩]] = .ok [] :=
  prune_empty_policy_keeps_all ⟨none, none, none, none, none, none⟩ (fun _ => false) false
    [[⟨false, true, true, true⟩], [⟨true, true, true, true⟩]] rfl

end Prune

namespace Store

theorem finishedDirs_cons_skip (e : DirEntry) (es : List DirEntry)
    (h : ¬ (e.isDir = true ∧ MANIFEST_BLOB_NAME ∈ e.files)) :
    finishedDirs (e :: es) = finishedDirs es := by
  have : (e.isDir && decide (MANIFEST_BLOB_NAME ∈ e.files)) = false := by
    rcases hd : e.isDir with _ | _
    · simp
    · simp only [Bool.true_and, decide_eq_false_iff_not]
      intro hf
      exact h ⟨hd, hf⟩
  simp [finishedDirs, List.filter_cons, this]

theorem finishedDirs_cons_keep (e : DirEntry) (es : List DirEntry)
    (hd : e.isDir = true) (hf : MANIFEST_BLOB_NAME ∈ e.files) :
    finishedDirs (e :: es) = e :: finishedDirs es := by
  simp [finishedDirs, List.filter_cons, hd, hf]

theorem lsb_from_some (es : List DirEntry) : ∀ l : Int, ∃ m,
    List.foldl lsbStep (some l) es = some m ∧ l ≤ m ∧
    (m = l ∨ ∃ e ∈ finishedDirs es, e.time = m) ∧
    (∀ e ∈ finishedDirs es, e.time ≤ m) := by
  induction es with
  | nil => intro l; exact ⟨l, rfl, le_refl l, Or.inl rfl, by simp [finishedDirs]⟩
  | cons e es ih =>
    intro l
    by_cases hq : e.isDir = true ∧ MANIFEST_BLOB_NAME ∈ e.files
    · obtain ⟨hd, hf⟩ := hq
      set l' : Int := if e.time > l then e.time else l with hl'
      have hstep : lsbStep (some l) e = some l' := by
        by_cases hgt : e.time > l <;> simp [lsbStep, hd, hf, hgt, hl']
      obtain ⟨m, hm, hlm, hw, hub⟩ := ih l'
      have hfold : List.foldl lsbStep (some l) (e :: es) = some m := by
        rw [List.foldl_cons, hstep]; exact hm
      have hll' : l ≤ l' := by rw [hl']; split <;> omega
      have het : e.time ≤ l' := by rw [hl']; split <;> omega
      have hfd := finishedDirs_cons_keep e es hd hf
      refine ⟨m, hfold, le_trans hll' hlm, ?_, ?_⟩
      · rcases hw with h | ⟨e', he', ht⟩
        · rw [h, hl']
          by_cases hgt : e.time > l
          · exact Or.inr ⟨e, by rw [hfd]; exact List.mem_cons_self e _, by simp [hgt]⟩
          · exact Or.inl (by simp [hgt])
        · exact Or.inr ⟨e', by rw [hfd]; exact List.mem_cons_of_mem e he', ht⟩
      · intro e' he'
        rw [hfd] at he'
        rcases List.mem_cons.mp he' with rfl | hmem'
        · exact le_trans het hlm
        · exact hub e' hmem'
    · have hstep : lsbStep (some l) e = some l := by
        unfold lsbStep
        rcases hd : e.isDir with _ | _
        · simp
        · have hf : ¬ MANIFEST_BLOB_NAME ∈ e.files := fun hf => hq ⟨hd, hf⟩
          simp [hf]
      obtain ⟨m, hm, hlm, hw, hub⟩ := ih l
      have hfd := finishedDirs_cons_skip e es hq
      refine ⟨m, ?_, hlm, ?_, ?_⟩
      · rw [List.foldl_cons, hstep]; exact hm
      · rcases hw with h | ⟨e', he', ht⟩
        · exact Or.inl h
        · exact Or.inr ⟨e', by rw [hfd]; exact he', ht⟩
      · intro e' he'
        rw [hfd] at he'
        exact hub e' he'

/-- Claim C4: `last_successful_backup` returns the maximum timestamp among the
group's snapshot directories that contain the manifest blob `index.json.blob`
(and `None` when no directory contains one), and a snapshot is considered
finished exactly when the manifest blob is among its files. -/
theorem last_successful_backup_is_max (entries : List DirEntry) :
    (last_successful_backup entries = none ↔ finishedDirs entries = []) ∧
    (∀ t : Int, last_successful_backup entries = some t →
      (∃ e ∈ finishedDirs entries, e.time = t) ∧ ∀ e ∈ finishedDirs entries, e.time ≤ t) ∧
    (∀ info : BackupInfo, info.is_finished = true ↔ MANIFEST_BLOB_NAME ∈ info.files) := by
  refine ⟨?_, ?_, ?_⟩
  · induction entries with
    | nil => simp [last_successful_backup, finishedDirs]
    | cons e es ih =>
      by_cases hq : e.isDir = true ∧ MANIFEST_BLOB_NAME ∈ e.files
      · obtain ⟨hd, hf⟩ := hq
        have hstep : lsbStep none e = some e.time := by simp [lsbStep, hd, hf]
        obtain ⟨m, hm, _, _, _⟩ := lsb_from_some es e.time
        constructor
        · intro hnone
          rw [last_successful_backup, List.foldl_cons, hstep, hm] at hnone
          cases hnone
        · intro hfin
          rw [finishedDirs_cons_keep e es hd hf] at hfin
          cases hfin
      · have hstep : lsbStep none e = none := by
          unfold lsbStep
          rcases hd : e.isDir with _ | _
          · simp
          · have hf : MANIFEST_BLOB_NAME ∉ e.files := fun hf => hq ⟨hd, hf⟩
            simp [hf]
        rw [last_successful_backup, List.foldl_cons, hstep,
          finishedDirs_cons_skip e es hq]
        exact ih
  · induction entries with
    | nil => intro t ht; cases ht
    | cons e es ih =>
      intro t ht
      by_cases hq : e.isDir = true ∧ MANIFEST_BLOB_NAME ∈ e.files
      · obtain ⟨hd, hf⟩ := hq
        have hstep : lsbStep none e = some e.time := by simp [lsbStep, hd, hf]
        obtain ⟨m, hm, hlm, hw, hub⟩ := lsb_from_some es e.time
        rw [last_successful_backup, List.foldl_cons, hstep, hm] at ht
        injection ht with htm
        subst htm
        have hfd := finishedDirs_cons_keep e es hd hf
        constructor
        · rcases hw with h | ⟨e', he', ht'⟩
          · exact ⟨e, by rw [hfd]; exact List.mem_cons_self e _, h.symm⟩
          · exact ⟨e', by rw [hfd]; exact List.mem_cons_of_mem e he', ht'⟩
        · intro e' he'
          rw [hfd] at he'
          rcases List.mem_cons.mp he' with rfl | hmem'
          · exact hlm
          · exact hub e' hmem'
      · have hstep : lsbStep none e = none := by
          unfold lsbStep
          rcases hd : e.isDir with _ | _
          · simp
          · have hf : MANIFEST_BLOB_NAME ∉ e.files := fun hf => hq ⟨hd, hf⟩
            simp [hf]
        rw [last_successful_backup, List.foldl_cons, hstep] at ht
        rw [finishedDirs_cons_skip e es hq]
        exact ih t ht
  · intro info
    simp only [BackupInfo.is_finished, List.any_eq_true, decide_eq_true_eq]
    exact ⟨fun ⟨x, hx, he⟩ => he ▸ hx, fun h => ⟨_, h, rfl⟩⟩

/-- Witness for C4 at a concrete group listing: the scan returns the maximal
manifest-carrying timestamp 5, which bounds the other finished snapshot at 3. -/
theorem last_successful_backup_is_max_witness :
    (∃ e ∈ finishedDirs [⟨5, true, ["index.json.blob"]⟩, ⟨9, true, []⟩,
        ⟨3, true, ["index.json.blob"]⟩], e.time = 5) ∧
    ∀ e ∈ finishedDirs [⟨5, true, ["index.json.blob"]⟩, ⟨9, true, []⟩,
        ⟨3, true, ["index.json.blob"]⟩], e.time ≤ 5 :=
  (last_successful_backup_is_max
    [⟨5, true, ["index.json.blob"]⟩, ⟨9, true, []⟩,
      ⟨3, true, ["index.json.blob"]⟩]).2.1 5 (by decide)

end Store

namespace Rrd

theorem RRD.update_last (r : RRD) (t : Nat) (v : ℚ) : (r.update t v).last_update = t := rfl

theorem applyEntry_rrdMap_ne (load : String → DST → RRD) (st : ApplyState)
    (e : JournalEntry) (p : String) (hne : p ≠ e.rel_path) :
    (applyEntry load st e).rrdMap p = st.rrdMap p := by
  unfold applyEntry
  cases h : st.rrdMap e.rel_path with
  | none => simp [hne]
  | some rrd =>
    simp only []
    split
    · simp [hne]
    · rfl

theorem applyFold_preserves_bound (load : String → DST → RRD) :
    ∀ (J : List JournalEntry) (st : ApplyState) (p : String) (X : Nat),
    (∀ e ∈ J, X ≤ e.time) →
    (∃ r, st.rrdMap p = some r ∧ X ≤ r.last_update) →
    ∃ r', (J.foldl (applyEntry load) st).rrdMap p = some r' ∧ X ≤ r'.last_update := by
  intro J
  induction J with
  | nil => intro st p X _ h; exact h
  | cons e J ih =>
    intro st p X hall hex
    obtain ⟨r, hr, hXr⟩ := hex
    apply ih (applyEntry load st e) p X (fun e' he' => hall e' (List.mem_cons_of_mem _ he'))
    by_cases hp : p = e.rel_path
    · subst hp
      unfold applyEntry
      rw [hr]
      simp only []
      split
      · refine ⟨r.update e.time e.value, by simp, ?_⟩
        rw [RRD.update_last]
        exact hall e (List.mem_cons_self _ _)
      · exact ⟨r, hr, hXr⟩
    · rw [applyEntry_rrdMap_ne load st e p hp]
      exact ⟨r, hr, hXr⟩

theorem applyFold_invariant (load : String → DST → RRD) :
    ∀ (J : List JournalEntry) (st : ApplyState),
    List.Pairwise (fun a b => a.time ≤ b.time) J →
    LumConsistent st →
    LumConsistent (J.foldl (applyEntry load) st) ∧
    ∀ e ∈ J, ∃ r, (J.foldl (applyEntry load) st).rrdMap e.rel_path = some r ∧
      e.time ≤ r.last_update := by
  intro J
  induction J with
  | nil => intro st _ hinv; exact ⟨hinv, by simp⟩
  | cons e J ih =>
    intro st hp hinv
    obtain ⟨hhead, htail⟩ := List.pairwise_cons.mp hp
    have hstep : LumConsistent (applyEntry load st e) ∧
        ∃ r, (applyEntry load st e).rrdMap e.rel_path = some r ∧
          e.time ≤ r.last_update := by
      unfold applyEntry
      cases hmr : st.rrdMap e.rel_path with
      | some rrd =>
        simp only []
        cases hml : st.lum e.rel_path with
        | some t =>
          have hg : getLastUpdate e.rel_path rrd st.lum = (t, st.lum) := by
            unfold getLastUpdate
            rw [hml]
          rw [hg]
          simp only []
          obtain ⟨r1, hr1, ht1⟩ := hinv e.rel_path t hml
          rw [hmr] at hr1
          injection hr1 with hr1
          subst hr1
          by_cases hgt : e.time > t
          · rw [if_pos hgt]
            constructor
            · intro p t0 hpt
              by_cases hpp : p = e.rel_path
              · subst hpp
                rw [hml] at hpt
                injection hpt with hpt
                subst hpt
                exact ⟨rrd.update e.time e.value, by simp, by rw [RRD.update_last]; omega⟩
              · obtain ⟨r2, hr2, ht2⟩ := hinv p t0 hpt
                exact ⟨r2, by simp only []; rw [if_neg hpp]; exact hr2, ht2⟩
            · exact ⟨rrd.update e.time e.value, by simp, by rw [RRD.update_last]⟩
          · rw [if_neg hgt]
            constructor
            · intro p t0 hpt
              exact hinv p t0 hpt
            · exact ⟨rrd, hmr, by omega⟩
        | none =>
          have hg : getLastUpdate e.rel_path rrd st.lum =
              (rrd.last_update, fun p => if p = e.rel_path then some rrd.last_update else st.lum p) := by
            unfold getLastUpdate
            rw [hml]
          rw [hg]
          simp only []
          by_cases hgt : e.time > rrd.last_update
          · rw [if_pos hgt]
            constructor
            · intro p t0 hpt
              simp only [] at hpt
              by_cases hpp : p = e.rel_path
              · subst hpp
                rw [if_pos rfl] at hpt
                injection hpt with hpt
                subst hpt
                exact ⟨rrd.update e.time e.value, by simp, by rw [RRD.update_last]; omega⟩
              · rw [if_neg hpp] at hpt
                obtain ⟨r2, hr2, ht2⟩ := hinv p t0 hpt
                exact ⟨r2, by simp only []; rw [if_neg hpp]; exact hr2, ht2⟩
            · exact ⟨rrd.update e.time e.value, by simp, by rw [RRD.update_last]⟩
          · rw [if_neg hgt]
            constructor
            · intro p t0 hpt
              simp only [] at hpt
              by_cases hpp : p = e.rel_path
              · subst hpp
                rw [if_pos rfl] at hpt
                injection hpt with hpt
                subst hpt
                exact ⟨rrd, hmr, le_refl _⟩
              · rw [if_neg hpp] at hpt
                exact hinv p t0 hpt
            · exact ⟨rrd, hmr, by omega⟩
      | none =>
        have hml : st.lum e.rel_path = none := by
          cases hml : st.lum e.rel_path with
          | none => rfl
          | some t =>
            obtain ⟨r1, hr1, _⟩ := hinv _ _ hml
            rw [hmr] at hr1
            cases hr1
        have hg : getLastUpdate e.rel_path (load e.rel_path e.dst) st.lum =
            ((load e.rel_path e.dst).last_update,
              fun p => if p = e.rel_path then some (load e.rel_path e.dst).last_update
                       else st.lum p) := by
          unfold getLastUpdate
          rw [hml]
        simp only []
        rw [hg]
        simp only []
        by_cases hgt : e.time > (load e.rel_path e.dst).last_update
        · rw [if_pos hgt]
          constructor
          · intro p t0 hpt
            simp only [] at hpt
            by_cases hpp : p = e.rel_path
            · subst hpp
              rw [if_pos rfl] at hpt
              injection hpt with hpt
              subst hpt
              exact ⟨(load e.rel_path e.dst).update e.time e.value, by simp,
                by rw [RRD.update_last]; omega⟩
            · rw [if_neg hpp] at hpt
              obtain ⟨r2, hr2, ht2⟩ := hinv p t0 hpt
              exact ⟨r2, by simp only []; rw [if_neg hpp]; exact hr2, ht2⟩
          · exact ⟨(load e.rel_path e.dst).update e.time e.value, by simp,
              by rw [RRD.update_last]⟩
        · rw [if_neg hgt]
          constructor
          · intro p t0 hpt
            simp only [] at hpt
            by_cases hpp : p = e.rel_path
            · subst hpp
              rw [if_pos rfl] at hpt
              injection hpt with hpt
              subst hpt
              exact ⟨load e.rel_path e.dst, by simp, le_refl _⟩
            · rw [if_neg hpp] at hpt
              obtain ⟨r2, hr2, ht2⟩ := hinv p t0 hpt
              exact ⟨r2, by simp only []; rw [if_neg hpp]; exact hr2, ht2⟩
          · exact ⟨load e.rel_path e.dst, by simp, by omega⟩
    obtain ⟨hinv', r0, hr0, hb0⟩ := hstep
    have hrest := ih (applyEntry load st e) htail hinv'
    refine ⟨hrest.1, ?_⟩
    intro e' he'
    rcases List.mem_cons.mp he' with rfl | hmem
    · exact applyFold_preserves_bound load J (applyEntry load st e') e'.rel_path e'.time
        hhead ⟨r0, hr0, hb0⟩
    · exact hrest.2 e' hmem

theorem applyFold_noop (load : String → DST → RRD) :
    ∀ (J : List JournalEntry) (st : ApplyState) (M : String → Option RRD),
    st.rrdMap = M →
    (∀ p t, st.lum p = some t → ∃ r, M p = some r ∧ r.last_update = t) →
    (∀ e ∈ J, ∃ r, M e.rel_path = some r ∧ e.time ≤ r.last_update) →
    (J.foldl (applyEntry load) st).rrdMap = M := by
  intro J
  induction J with
  | nil => intro st M hst _ _; exact hst
  | cons e J ih =>
    intro st M hst hlum hall
    obtain ⟨r, hrM, hbound⟩ := hall e (List.mem_cons_self _ _)
    have hmr : st.rrdMap e.rel_path = some r := by rw [hst]; exact hrM
    have hlu1 : e.time ≤ (getLastUpdate e.rel_path r st.lum).1 := by
      unfold getLastUpdate
      cases hml : st.lum e.rel_path with
      | none => simpa using hbound
      | some t =>
        simp only []
        obtain ⟨r2, hr2, hl2⟩ := hlum e.rel_path t hml
        rw [hrM] at hr2
        injection hr2 with hr2
        subst hr2
        omega
    have happ : applyEntry load st e = { st with lum := (getLastUpdate e.rel_path r st.lum).2 } := by
      unfold applyEntry
      rw [hmr]
      simp only []
      rw [if_neg (by omega)]
    rw [List.foldl_cons, happ]
    refine ih { rrdMap := st.rrdMap, lum := (getLastUpdate e.rel_path r st.lum).2 } M hst ?_ ?_
    · intro p t hpt
      simp only [] at hpt
      unfold getLastUpdate at hpt
      cases hml : st.lum e.rel_path with
      | some t1 =>
        rw [hml] at hpt
        exact hlum p t hpt
      | none =>
        rw [hml] at hpt
        simp only [] at hpt
        by_cases hpp : p = e.rel_path
        · subst hpp
          rw [if_pos rfl] at hpt
          injection hpt with hpt
          exact ⟨r, hrM, hpt⟩
        · rw [if_neg hpp] at hpt
          exact hlum p t hpt
    · intro e' he'
      exact hall e' (List.mem_cons_of_mem _ he')

/-- Counterexample to C7 as stated: with a journal whose entries are out of
time order, re-applying the journal on top of already-applied state changes
the in-RAM RRD — the guard uses the last update memoized at the start of the
run, so the newer entry is applied again on the second run. -/
theorem journal_reapply_counterexample :
    Option.map RRD.last_update
        (applyJournal (fun _ _ => RRD.new) [⟨200, 1, .Gauge, "a"⟩, ⟨100, 2, .Gauge, "a"⟩]
          (applyJournal (fun _ _ => RRD.new) [⟨200, 1, .Gauge, "a"⟩, ⟨100, 2, .Gauge, "a"⟩]
            (fun _ => none)) "a") = some 200 ∧
    Option.map RRD.last_update
        (applyJournal (fun _ _ => RRD.new) [⟨200, 1, .Gauge, "a"⟩, ⟨100, 2, .Gauge, "a"⟩]
          (fun _ => none) "a") = some 100 ∧
    applyJournal (fun _ _ => RRD.new) [⟨200, 1, .Gauge, "a"⟩, ⟨100, 2, .Gauge, "a"⟩]
        (applyJournal (fun _ _ => RRD.new) [⟨200, 1, .Gauge, "a"⟩, ⟨100, 2, .Gauge, "a"⟩]
          (fun _ => none)) ≠
      applyJournal (fun _ _ => RRD.new) [⟨200, 1, .Gauge, "a"⟩, ⟨100, 2, .Gauge, "a"⟩]
        (fun _ => none) := by
  refine ⟨rfl, rfl, ?_⟩
  intro h
  have h2 := congrArg (fun g => Option.map RRD.last_update (g "a")) h
  simp only [] at h2
  have hA : Option.map RRD.last_update
      (applyJournal (fun _ _ => RRD.new) [⟨200, 1, .Gauge, "a"⟩, ⟨100, 2, .Gauge, "a"⟩]
        (applyJournal (fun _ _ => RRD.new) [⟨200, 1, .Gauge, "a"⟩, ⟨100, 2, .Gauge, "a"⟩]
          (fun _ => none)) "a") = some 200 := rfl
  have hB : Option.map RRD.last_update
      (applyJournal (fun _ _ => RRD.new) [⟨200, 1, .Gauge, "a"⟩, ⟨100, 2, .Gauge, "a"⟩]
        (fun _ => none) "a") = some 100 := rfl
  rw [hA, hB] at h2
  cases h2

/-- Claim C7 (amended): applying the RRD journal a second time on top of in-RAM
state to which it has already been applied leaves every in-RAM RRD unchanged,
provided the journal's entries appear in nondecreasing time order (as produced
by appending entries at the current time); the guard compares each entry's
time against the per-path last update memoized at the start of the run. -/
theorem journal_reapply_idempotent (load : String → DST → RRD)
    (J : List JournalEntry) (m : String → Option RRD)
    (hsorted : List.Pairwise (fun a b => a.time ≤ b.time) J) :
    applyJournal load J (applyJournal load J m) = applyJournal load J m := by
  have h1 := applyFold_invariant load J ⟨m, fun _ => none⟩ hsorted
    (by intro p t h; cases h)
  unfold applyJournal
  apply applyFold_noop load J _ _ rfl (by intro p t h; cases h)
  intro e he
  exact h1.2 e he

/-- Witness for C7's amended theorem at a concrete time-sorted journal. -/
theorem journal_reapply_idempotent_witness :
    applyJournal (fun _ _ => RRD.new) [⟨100, 1, .Gauge, "a"⟩, ⟨200, 2, .Gauge, "a"⟩]
        (applyJournal (fun _ _ => RRD.new) [⟨100, 1, .Gauge, "a"⟩, ⟨200, 2, .Gauge, "a"⟩]
          (fun _ => none)) =
      applyJournal (fun _ _ => RRD.new) [⟨100, 1, .Gauge, "a"⟩, ⟨200, 2, .Gauge, "a"⟩]
        (fun _ => none) :=
  journal_reapply_idempotent (fun _ _ => RRD.new)
    [⟨100, 1, .Gauge, "a"⟩, ⟨200, 2, .Gauge, "a"⟩] (fun _ => none)
    (by simp [List.pairwise_cons])

theorem resoVal_pos (tf : RRDTimeFrameResolution) : 0 < tf.val := by
  cases tf <;> norm_num [RRDTimeFrameResolution.val]

theorem extractLoop_spec (data : Fin 70 → RRDEntry) (mode : RRDMode)
    (reso rrdStart rrdEnd : Nat) (hreso : 0 < reso) :
    ∀ (n t index : Nat),
      index = (t / reso) % 70 →
      t + n * reso < U64 →
      reso ∣ t →
      ∀ p ∈ extractLoop data mode reso rrdStart rrdEnd n t index,
        (∃ j, p.time = reso * j) ∧
        ((p.time < rrdStart ∨ p.time > rrdEnd) → p.value = none) ∧
        (∀ v, p.value = some v →
          (data (idx ((p.time / reso) % 70))).count ≠ 0 ∧
          v = (match mode with
               | .Max => (data (idx ((p.time / reso) % 70))).max
               | .Average => (data (idx ((p.time / reso) % 70))).average)) := by
  intro n
  induction n with
  | zero =>
    intro t index _ _ _ p hp
    simp [extractLoop] at hp
  | succ n ih =>
    intro t index hidx hbound hdvd p hp
    rw [extractLoop] at hp
    rcases List.mem_cons.mp hp with rfl | hmem
    · by_cases hw : t < rrdStart ∨ t > rrdEnd
      · rw [if_pos hw]
        obtain ⟨j, hj⟩ := hdvd
        exact ⟨⟨j, hj⟩, fun _ => rfl, fun v hv => by cases hv⟩
      · rw [if_neg hw]
        simp only []
        by_cases hc : (data (idx index)).count = 0
        · rw [if_pos hc]
          obtain ⟨j, hj⟩ := hdvd
          exact ⟨⟨j, hj⟩, fun _ => rfl, fun v hv => by cases hv⟩
        · rw [if_neg hc]
          obtain ⟨j, hj⟩ := hdvd
          refine ⟨⟨j, hj⟩, fun hcon => absurd hcon hw, ?_⟩
          intro v hv
          injection hv with hv
          subst hv
          rw [hidx] at hc ⊢
          exact ⟨hc, rfl⟩
    · have hmul : (n + 1) * reso = n * reso + reso := by ring
      have ht' : wadd t reso = t + reso := wadd_eq_of_lt (by omega)
      have hidx' : (index + 1) % 70 = ((t + reso) / reso) % 70 := by
        rw [hidx, Nat.add_div_right t hreso]
        exact Nat.mod_add_mod (t / reso) 70 1
      exact ih (wadd t reso) ((index + 1) % 70)
        (by rw [ht']; exact hidx')
        (by rw [ht']; omega)
        (by rw [ht']; exact dvd_add hdvd (dvd_refl reso)) p hmem

/-- Counterexample to C8 as stated: the reporting window is aligned to
`r * (last_update / r)`, not to `last_update` itself.  With `last_update =
4259` and hourly resolution 60, the slot at time 0 lies before
`last_update − 70·60 = 59`, yet its stored sample is reported, not null. -/
theorem extract_data_window_counterexample :
    (RRD.extract_data ⟨4259, fun i => if i = 0 then ⟨5, 5, 1⟩ else ⟨0, 0, 0⟩,
        fun _ => ⟨0, 0, 0⟩, fun _ => ⟨0, 0, 0⟩, fun _ => ⟨0, 0, 0⟩, fun _ => ⟨0, 0, 0⟩⟩
      4259 .Hour .Max).head? = some ⟨0, some 5⟩ ∧
    (0 : Nat) < 4259 - 70 * RRDTimeFrameResolution.Hour.val := by
  constructor
  · rfl
  · norm_num [RRDTimeFrameResolution.val]

/-- Claim C8 (amended): for every RRD, extraction epoch, timeframe resolution
`r` and mode, `extract_data` returns slots whose times are multiples of `r`,
reporting the slot's max or average according to the mode where a value is
reported, and reporting as null every slot whose time lies before
`r·⌊last_update/r⌋ − 70·r` (the window start aligned down to `r`, rather than
`last_update − 70·r` as originally stated) or after `last_update`.  Stated
under no-wrap-around side conditions on the `u64` subtractions. -/
theorem extract_data_window (rrd : RRD) (epoch : Nat) (tf : RRDTimeFrameResolution)
    (mode : RRDMode)
    (hep : tf.val * RRD_DATA_ENTRIES ≤ tf.val * (epoch / tf.val))
    (hlu : tf.val * RRD_DATA_ENTRIES ≤ tf.val * (rrd.last_update / tf.val))
    (hepU : epoch < U64) (hluU : rrd.last_update < U64) :
    ∀ p ∈ rrd.extract_data epoch tf mode,
      (∃ j, p.time = tf.val * j) ∧
      (p.time < tf.val * (rrd.last_update / tf.val) - tf.val * RRD_DATA_ENTRIES →
        p.value = none) ∧
      (p.time > rrd.last_update → p.value = none) ∧
      (∀ v, p.value = some v →
        (rrd.series tf (idx ((p.time / tf.val) % 70))).count ≠ 0 ∧
        v = (match mode with
             | .Max => (rrd.series tf (idx ((p.time / tf.val) % 70))).max
             | .Average => (rrd.series tf (idx ((p.time / tf.val) % 70))).average)) := by
  intro p hp
  have hreso := resoVal_pos tf
  have heU : tf.val * (epoch / tf.val) ≤ epoch := by
    rw [Nat.mul_comm]
    exact Nat.div_mul_le_self epoch tf.val
  have hlE : tf.val * (rrd.last_update / tf.val) ≤ rrd.last_update := by
    rw [Nat.mul_comm]
    exact Nat.div_mul_le_self rrd.last_update tf.val
  unfold RRD.extract_data at hp
  simp only [] at hp
  rw [wsub_eq_of_le hep (lt_of_le_of_lt heU hepU),
    wsub_eq_of_le hlu (lt_of_le_of_lt hlE hluU)] at hp
  have hA : RRD_DATA_ENTRIES * tf.val = tf.val * RRD_DATA_ENTRIES := Nat.mul_comm _ _
  have hspec := extractLoop_spec (rrd.series tf) mode tf.val
    (tf.val * (rrd.last_update / tf.val) - tf.val * RRD_DATA_ENTRIES)
    (tf.val * (rrd.last_update / tf.val)) hreso RRD_DATA_ENTRIES
    (tf.val * (epoch / tf.val) - tf.val * RRD_DATA_ENTRIES)
    ((tf.val * (epoch / tf.val) - tf.val * RRD_DATA_ENTRIES) / tf.val % 70)
    rfl (by omega)
    (Nat.dvd_sub' (Dvd.intro _ rfl) (Dvd.intro _ rfl)) p hp
  obtain ⟨hj, hnull, hval⟩ := hspec
  refine ⟨hj, ?_, ?_, hval⟩
  · intro hlt
    exact hnull (Or.inl hlt)
  · intro hgt
    exact hnull (Or.inr (by omega))

/-- Witness for C8's amended theorem at a concrete RRD: the slot at time 4260,
which lies after `last_update = 4200`, is reported as null even though every
hour slot carries a sample. -/
theorem extract_data_window_witness :
    (⟨4260, none⟩ : DataPoint).value = none := by
  have h := extract_data_window
    ⟨4200, fun _ => ⟨5, 5, 1⟩, fun _ => ⟨0, 0, 0⟩, fun _ => ⟨0, 0, 0⟩,
      fun _ => ⟨0, 0, 0⟩, fun _ => ⟨0, 0, 0⟩⟩ 8460 .Hour .Max
    (by norm_num [RRDTimeFrameResolution.val, RRD_DATA_ENTRIES])
    (by norm_num [RRDTimeFrameResolution.val, RRD_DATA_ENTRIES])
    (by norm_num [U64]) (by norm_num [U64]) ⟨4260, none⟩ (by decide)
  exact h.2.2.1 (by norm_num)

end Rrd

end PBS
